import Mathlib

/-!
Verification of the Dockerfile-generator scripts
(`create-dockerfile.py`, variant A, and the `create-dockerfile copy.py`
variant, variant B).

Template text is modelled as `List Char`.  Python's `str.replace(old, new)`
(and `re.sub` with a metacharacter-free literal pattern) is embedded as
`repl`: it scans left to right and replaces every non-overlapping
occurrence of the pattern, leftmost first.  `re.sub` with a pattern of the
form `LIT.*` (no DOTALL) is embedded as `replEol`: at each match the
pattern consumes `LIT` and then greedily up to (but not including) the
next newline.
-/

/-- Boolean list-prefix test (`p` is a prefix of `s`). -/
def pfxB : List Char → List Char → Bool
  | [], _ => true
  | _ :: _, [] => false
  | a :: as, b :: bs => a == b && pfxB as bs

/-- `occursB p s` is true when `p` occurs as a contiguous substring of `s`. -/
def occursB (p : List Char) : List Char → Bool
  | [] => p.isEmpty
  | c :: s' => pfxB p (c :: s') || occursB p s'

theorem pfxB_iff (p s : List Char) : pfxB p s = true ↔ ∃ t, s = p ++ t := by
  induction p generalizing s with
  | nil => simp [pfxB]
  | cons a as ih =>
    cases s with
    | nil => simp [pfxB]
    | cons b bs =>
      simp only [pfxB, Bool.and_eq_true, beq_iff_eq]
      constructor
      · rintro ⟨rfl, h⟩
        obtain ⟨t, rfl⟩ := (ih bs).mp h
        exact ⟨t, rfl⟩
      · rintro ⟨t, ht⟩
        cases ht
        exact ⟨rfl, (ih (as ++ t)).mpr ⟨t, rfl⟩⟩

theorem occursB_nil (p : List Char) : occursB p [] = p.isEmpty := rfl

theorem occursB_cons (p : List Char) (c : Char) (s : List Char) :
    occursB p (c :: s) = (pfxB p (c :: s) || occursB p s) := rfl

/-- Fuel-driven engine for `repl`; with fuel at least the length of the
input it computes the full left-to-right non-overlapping replacement. -/
def replF (p r : List Char) : Nat → List Char → List Char
  | 0, s => s
  | _ + 1, [] => []
  | n + 1, c :: s =>
    if pfxB p (c :: s) then r ++ replF p r n (List.drop (p.length - 1) s)
    else c :: replF p r n s

/-- Embedding of Python `str.replace(p, r)` (all non-overlapping
occurrences, leftmost first); also `re.sub` for a literal pattern. -/
def repl (p r s : List Char) : List Char :=
  replF p r s.length s

theorem replF_fuel (p r : List Char) :
    ∀ (n m : Nat) (s : List Char), s.length ≤ n → s.length ≤ m →
      replF p r n s = replF p r m s := by
  intro n
  induction n with
  | zero =>
    intro m s hn _
    have : s = [] := List.eq_nil_of_length_eq_zero (Nat.le_zero.mp hn)
    subst this
    cases m <;> rfl
  | succ k ih =>
    intro m s hn hm
    cases s with
    | nil => cases m <;> rfl
    | cons c s' =>
      cases m with
      | zero => exact absurd hm (by simp)
      | succ m' =>
        simp only [replF]
        by_cases hpre : pfxB p (c :: s') = true
        · rw [hpre]
          simp only [if_true]
          congr 1
          apply ih
          · calc (List.drop (p.length - 1) s').length ≤ s'.length :=
                  by simp
              _ ≤ k := by simpa using hn
          · calc (List.drop (p.length - 1) s').length ≤ s'.length :=
                  by simp
              _ ≤ m' := by simpa using hm
        · rw [Bool.not_eq_true] at hpre
          rw [hpre]
          simp only [Bool.false_eq_true, if_false]
          congr 1
          exact ih m' s' (by simpa using hn) (by simpa using hm)

theorem repl_nil (p r : List Char) : repl p r [] = [] := rfl

theorem repl_cons (p r : List Char) (c : Char) (s : List Char) :
    repl p r (c :: s) =
      if pfxB p (c :: s) then r ++ repl p r (List.drop (p.length - 1) s)
      else c :: repl p r s := by
  show replF p r (s.length + 1) (c :: s) = _
  simp only [replF]
  by_cases hpre : pfxB p (c :: s) = true
  · rw [hpre]
    simp only [if_true]
    congr 1
    exact replF_fuel p r _ _ _
      (by simp) (Nat.le_refl _)
  · rw [Bool.not_eq_true] at hpre
    rw [hpre]
    simp only [Bool.false_eq_true, if_false]
    rfl

theorem repl_not_pfx (p r : List Char) (c : Char) (s : List Char)
    (h : pfxB p (c :: s) = false) :
    repl p r (c :: s) = c :: repl p r s := by
  rw [repl_cons, h]
  simp

/-- A string containing no occurrence of the pattern is left unchanged. -/
theorem repl_no_occur (p r s : List Char) (h : occursB p s = false) :
    repl p r s = s := by
  induction s with
  | nil => rfl
  | cons c s' ih =>
    rw [occursB_cons, Bool.or_eq_false_iff] at h
    rw [repl_not_pfx p r c s' h.1, ih h.2]

theorem pfxB_append (p t : List Char) : pfxB p (p ++ t) = true :=
  (pfxB_iff p (p ++ t)).mpr ⟨t, rfl⟩

/-- Replacing at an exact leading occurrence. -/
theorem repl_append_left (p r t : List Char) (hp : p ≠ []) :
    repl p r (p ++ t) = r ++ repl p r t := by
  cases p with
  | nil => exact absurd rfl hp
  | cons a p' =>
    rw [List.cons_append, repl_cons,
      show pfxB (a :: p') (a :: (p' ++ t)) = true from pfxB_append (a :: p') t]
    simp only [if_true]
    congr 2
    show List.drop p'.length (p' ++ t) = t
    simpa using List.drop_left p' t

theorem length_pos_of_ne_nil {p : List Char} (hp : p ≠ []) : 1 ≤ p.length := by
  cases p with
  | nil => exact absurd rfl hp
  | cons _ _ => simp

/-- Replacing a pattern by itself is the identity. -/
theorem repl_self (p : List Char) (hp : p ≠ []) :
    ∀ s, repl p p s = s := by
  have key : ∀ n s, s.length ≤ n → repl p p s = s := by
    intro n
    induction n with
    | zero =>
      intro s h
      have : s = [] := List.eq_nil_of_length_eq_zero (Nat.le_zero.mp h)
      subst this; rfl
    | succ k ih =>
      intro s h
      cases s with
      | nil => rfl
      | cons c s' =>
        by_cases hpre : pfxB p (c :: s') = true
        · obtain ⟨t, ht⟩ := (pfxB_iff p (c :: s')).mp hpre
          rw [ht, repl_append_left p p t hp, ih t]
          have hlen := congrArg List.length ht
          simp only [List.length_cons, List.length_append] at hlen
          have hplen := length_pos_of_ne_nil hp
          simp only [List.length_cons] at h
          omega
        · rw [Bool.not_eq_true] at hpre
          rw [repl_not_pfx p p c s' hpre, ih s' (by simpa using h)]
  intro s
  exact key s.length s (Nat.le_refl _)

theorem pfxB_mono (p x y : List Char) (h : pfxB p x = true) :
    pfxB p (x ++ y) = true := by
  obtain ⟨t, rfl⟩ := (pfxB_iff p x).mp h
  rw [List.append_assoc]
  exact pfxB_append p (t ++ y)

theorem pfxB_append_of_le (p : List Char) :
    ∀ (x y : List Char), p.length ≤ x.length → pfxB p (x ++ y) = pfxB p x := by
  induction p with
  | nil => intro x y _; rfl
  | cons a as ih =>
    intro x y hlen
    cases x with
    | nil => simp at hlen
    | cons b bs =>
      simp only [List.cons_append, pfxB, List.append_eq]
      rw [ih bs y (by simpa using hlen)]

theorem newline_mem_of_long_pfx (p : List Char) :
    ∀ (x b : List Char), pfxB p (x ++ '\n' :: b) = true →
      x.length < p.length → '\n' ∈ p := by
  induction p with
  | nil => intro x b _ h; simp at h
  | cons a as ih =>
    intro x b hpre hlen
    cases x with
    | nil =>
      simp only [List.nil_append, pfxB, Bool.and_eq_true, beq_iff_eq] at hpre
      rw [hpre.1]
      exact List.mem_cons_self _ _
    | cons d xs =>
      simp only [List.cons_append, pfxB, Bool.and_eq_true] at hpre
      have := ih xs b hpre.2 (by simpa using hlen)
      exact List.mem_cons_of_mem a this

/-- `repl` distributes over a newline when the pattern has no newline. -/
theorem repl_split (p r : List Char) (hp : p ≠ []) (hnl : '\n' ∉ p) :
    ∀ a b, repl p r (a ++ '\n' :: b) = repl p r a ++ '\n' :: repl p r b := by
  have base : ∀ b, repl p r ('\n' :: b) = '\n' :: repl p r b := by
    intro b
    have hpre : pfxB p ('\n' :: b) = false := by
      by_contra hcon
      rw [Bool.not_eq_false] at hcon
      exact hnl (newline_mem_of_long_pfx p [] b (by simpa using hcon)
        (by simpa using length_pos_of_ne_nil hp))
    exact repl_not_pfx p r '\n' b hpre
  have key : ∀ n a b, a.length ≤ n →
      repl p r (a ++ '\n' :: b) = repl p r a ++ '\n' :: repl p r b := by
    intro n
    induction n with
    | zero =>
      intro a b h
      have : a = [] := List.eq_nil_of_length_eq_zero (Nat.le_zero.mp h)
      subst this
      simpa using base b
    | succ k ih =>
      intro a b h
      cases a with
      | nil => simpa using base b
      | cons c a' =>
        by_cases hpre : pfxB p (c :: a' ++ '\n' :: b) = true
        · by_cases hlen : p.length ≤ (c :: a').length
          · have hpx : pfxB p (c :: a') = true := by
              rw [← pfxB_append_of_le p (c :: a') ('\n' :: b) hlen]
              simpa using hpre
            obtain ⟨t, ht⟩ := (pfxB_iff p (c :: a')).mp hpx
            have hlena := congrArg List.length ht
            simp only [List.length_cons, List.length_append] at hlena
            have hplen := length_pos_of_ne_nil hp
            have h1 : c :: a' ++ '\n' :: b = p ++ (t ++ '\n' :: b) := by
              rw [show c :: a' ++ '\n' :: b = (c :: a') ++ '\n' :: b from rfl,
                ht, List.append_assoc]
            rw [h1, repl_append_left p r _ hp,
              ih t b (by simp only [List.length_cons] at h; omega),
              ht, repl_append_left p r t hp, List.append_assoc]
          · exfalso
            push_neg at hlen
            exact hnl (newline_mem_of_long_pfx p (c :: a') b hpre hlen)
        · rw [Bool.not_eq_true] at hpre
          have hpx : pfxB p (c :: a') = false := by
            by_contra hcon
            rw [Bool.not_eq_false] at hcon
            have := pfxB_mono p (c :: a') ('\n' :: b) hcon
            simp only [List.cons_append] at this hpre
            rw [this] at hpre
            exact Bool.true_eq_false.mp hpre
          have hpre' : pfxB p (c :: (a' ++ '\n' :: b)) = false := by
            simpa using hpre
          rw [List.cons_append, repl_not_pfx p r c _ hpre',
            repl_not_pfx p r c a' hpx, ih a' b (by simpa using h)]
          simp
  intro a b
  exact key a.length a b (Nat.le_refl _)

/-- Join a list of lines with newline separators (inverse of splitting a
text into lines). -/
def joinLines : List (List Char) → List Char
  | [] => []
  | [l] => l
  | l :: l' :: ls => l ++ '\n' :: joinLines (l' :: ls)

/-- Split a text into its lines at newline characters. -/
def splitLines : List Char → List (List Char)
  | [] => [[]]
  | c :: s =>
    if c = '\n' then [] :: splitLines s
    else
      match splitLines s with
      | [] => [[c]]
      | l :: ls => (c :: l) :: ls

/-- A pattern-free-of-newlines replacement acts on a joined text line by
line. -/
theorem repl_joinLines (p r : List Char) (hp : p ≠ []) (hnl : '\n' ∉ p) :
    ∀ ls : List (List Char),
      repl p r (joinLines ls) = joinLines (ls.map (repl p r)) := by
  intro ls
  induction ls with
  | nil => rfl
  | cons l ls' ih =>
    cases ls' with
    | nil => rfl
    | cons l' ls'' =>
      show repl p r (l ++ '\n' :: joinLines (l' :: ls'')) = _
      rw [repl_split p r hp hnl l (joinLines (l' :: ls'')), ih]
      rfl

/-! ## Variant A: `create-dockerfile.py` -/

/-- Base OS choice (`--base {ubuntu,alpine}`). -/
inductive BaseOS where
  | ubuntu
  | alpine
deriving DecidableEq

/-- Resolved command-line options of `create-dockerfile.py`
(`parse_arguments`). -/
structure ArgsA where
  base : BaseOS
  golang : Bool
  rust : Bool
  python : Bool
  nodejs : Bool
  java : Bool
  all : Bool
  goVersion : List Char
  nodeVersion : List Char
  javaVersion : List Char

/-- Base-OS processing of `generate_dockerfile` (lines 79-92). -/
def baseStep (os : BaseOS) (content : List Char) : List Char :=
  match os with
  | .ubuntu =>
    let c1 := repl "#FROM ubuntu:22.04".toList "FROM ubuntu:22.04".toList content
    repl "# RUN apt-get update".toList "RUN apt-get update".toList c1
  | .alpine =>
    let c1 := repl "FROM ubuntu:22.04".toList "# FROM ubuntu:22.04".toList content
    let c2 := repl "# FROM alpine:latest".toList "FROM alpine:latest".toList c1
    let c3 := repl "# RUN apk update".toList "RUN apk update".toList c2
    let c4 := repl "CMD [\"/bin/bash\"]".toList "# CMD [\"/bin/bash\"]".toList c3
    repl "# For Alpine, use \"/bin/ash\" instead of \"/bin/bash\"".toList
      "CMD [\"/bin/ash\"]".toList c4

/-- The `--all` handling (line 96-97): enables every language flag. -/
def resolveAll (a : ArgsA) : ArgsA :=
  if a.all then
    { a with golang := true, rust := true, python := true,
             nodejs := true, java := true }
  else a

/-- The five optional language components. -/
inductive Comp where
  | golang
  | rust
  | python
  | nodejs
  | java
deriving DecidableEq

def compEnabled (a : ArgsA) : Comp → Bool
  | .golang => a.golang
  | .rust => a.rust
  | .python => a.python
  | .nodejs => a.nodejs
  | .java => a.java

/-- The enable-flag assignment marker of each component. -/
def flagPat : Comp → List Char
  | .golang => "ARG INSTALL_GOLANG=true".toList
  | .rust => "ARG INSTALL_RUST=true".toList
  | .python => "ARG INSTALL_PYTHON=true".toList
  | .nodejs => "ARG INSTALL_NODEJS=true".toList
  | .java => "ARG INSTALL_JAVA=true".toList

/-- The disabled form written by the `else` branches. -/
def flagFalse : Comp → List Char
  | .golang => "ARG INSTALL_GOLANG=false".toList
  | .rust => "ARG INSTALL_RUST=false".toList
  | .python => "ARG INSTALL_PYTHON=false".toList
  | .nodejs => "ARG INSTALL_NODEJS=false".toList
  | .java => "ARG INSTALL_JAVA=false".toList

/-- Version handling data: marker pattern and the fixed replacement
prefix `ARG NAME=` (the version value is appended to it). -/
def verData : Comp → Option (List Char × List Char)
  | .golang => some ("ARG GO_VERSION=1.22.2".toList, "ARG GO_VERSION=".toList)
  | .nodejs => some ("ARG NODE_MAJOR=20".toList, "ARG NODE_MAJOR=".toList)
  | .java => some ("ARG JAVA_VERSION=17".toList, "ARG JAVA_VERSION=".toList)
  | _ => none

def verValue (a : ArgsA) : Comp → List Char
  | .golang => a.goVersion
  | .nodejs => a.nodeVersion
  | .java => a.javaVersion
  | _ => []

/-- One component's configuration step of `generate_dockerfile`
(lines 99-130): when enabled, the flag marker is replaced by itself and
the version marker (if any) by `ARG NAME=<version>`; when disabled, the
flag marker is replaced by the `=false` form. -/
def compStepA (a : ArgsA) (c : Comp) (s : List Char) : List Char :=
  if compEnabled a c then
    let s1 := repl (flagPat c) (flagPat c) s
    match verData c with
    | some (pv, lit) => repl pv (lit ++ verValue a c) s1
    | none => s1
  else
    repl (flagPat c) (flagFalse c) s

/-- Source order of the five configuration blocks. -/
def compOrder : List Comp := [.golang, .rust, .python, .nodejs, .java]

/-- Apply the component configuration steps in the given order. -/
def applyComps (a : ArgsA) (order : List Comp) (s : List Char) : List Char :=
  order.foldl (fun s c => compStepA a c s) s

/-- Full text transformation of `generate_dockerfile`: base-OS toggling,
`--all` resolution, then the five component steps in source order. -/
def generateTextA (a : ArgsA) (content : List Char) : List Char :=
  applyComps (resolveAll a) compOrder (baseStep a.base content)

/-- The "Included languages" report (lines 140-145), a function of the
(resolved) options only. -/
def reportA (a : ArgsA) : List (List Char) :=
  (if a.golang then ["Go ".toList ++ a.goVersion] else []) ++
  (if a.rust then ["Rust".toList] else []) ++
  (if a.python then ["Python".toList] else []) ++
  (if a.nodejs then ["Node.js ".toList ++ a.nodeVersion] else []) ++
  (if a.java then ["Java ".toList ++ a.javaVersion] else [])

/-- The report printed by the program (computed after `--all`
resolution, line 96-97 then 140-145). -/
def programReportA (a : ArgsA) : List (List Char) :=
  reportA (resolveAll a)

/-- Result of one program run: exit code and the file written (if any). -/
structure ProgResultA where
  exitCode : Nat
  written : Option (List Char)
deriving DecidableEq

/-- `generate_dockerfile` viewed from the outside (lines 70-73 and
132-134): a missing template is a fatal error (`sys.exit(1)`) before any
transformation, otherwise the transformed text is written and the
process succeeds. -/
def runProgramA (tmpl : Option (List Char)) (a : ArgsA) : ProgResultA :=
  match tmpl with
  | none => { exitCode := 1, written := none }
  | some t => { exitCode := 0, written := some (generateTextA a t) }

example : repl "ab".toList "x".toList "zabzab".toList = "zxzx".toList := by decide

def argsBaseA (os : BaseOS) : ArgsA :=
  { base := os, golang := false, rust := false, python := false,
    nodejs := false, java := false, all := false,
    goVersion := "1.22.2".toList, nodeVersion := "20".toList,
    javaVersion := "17".toList }

def argsGolangOn : ArgsA := { argsBaseA .ubuntu with golang := true }

def argsNodeOn : ArgsA := { argsBaseA .ubuntu with nodejs := true }

/-- C1: the Component Configurator is claimed to rewrite the enable-flag
literal to the requested boolean regardless of the literal the template
carried.  The code only matches the literal `=true`: on a template whose
golang flag reads `ARG INSTALL_GOLANG=false`, requesting golang enabled
leaves the text unchanged — the output flag literal stays `false`, not
the requested `true`. -/
theorem c1_flag_not_driven_by_request :
    compStepA argsGolangOn Comp.golang "ARG INSTALL_GOLANG=false".toList =
      "ARG INSTALL_GOLANG=false".toList ∧
    compEnabled argsGolangOn Comp.golang = true ∧
    occursB "ARG INSTALL_GOLANG=true".toList
      (compStepA argsGolangOn Comp.golang
        "ARG INSTALL_GOLANG=false".toList) = false := by
  refine ⟨by decide, rfl, by decide⟩

/-- C2: the whole transformation is claimed idempotent on its own output.
With the alpine profile the commented Ubuntu `FROM` line gains another
`# ` prefix on every run (`replace('FROM ubuntu:22.04', '# FROM
ubuntu:22.04')` matches its own output again), so the second run differs
from the first. -/
theorem c2_not_idempotent :
    generateTextA (argsBaseA .alpine)
        "#FROM ubuntu:22.04\n# FROM alpine:latest".toList =
      "## FROM ubuntu:22.04\nFROM alpine:latest".toList ∧
    generateTextA (argsBaseA .alpine)
        "## FROM ubuntu:22.04\nFROM alpine:latest".toList =
      "## # FROM ubuntu:22.04\nFROM alpine:latest".toList ∧
    generateTextA (argsBaseA .alpine)
        (generateTextA (argsBaseA .alpine)
          "#FROM ubuntu:22.04\n# FROM alpine:latest".toList) ≠
      generateTextA (argsBaseA .alpine)
        "#FROM ubuntu:22.04\n# FROM alpine:latest".toList := by
  refine ⟨by decide, by decide, by decide⟩

/-- C3: region toggling is claimed reversible.  Suppressing an active
Ubuntu region with the alpine profile writes `# FROM ubuntu:22.04`
(hash, space), but the ubuntu profile only re-activates the literal
`#FROM ubuntu:22.04` (no space), so the round trip does not restore the
original line. -/
theorem c3_toggle_not_reversible :
    generateTextA (argsBaseA .alpine) "FROM ubuntu:22.04".toList =
      "# FROM ubuntu:22.04".toList ∧
    generateTextA (argsBaseA .ubuntu)
        (generateTextA (argsBaseA .alpine) "FROM ubuntu:22.04".toList) =
      "# FROM ubuntu:22.04".toList ∧
    generateTextA (argsBaseA .ubuntu)
        (generateTextA (argsBaseA .alpine) "FROM ubuntu:22.04".toList) ≠
      "FROM ubuntu:22.04".toList := by
  refine ⟨by decide, by decide, by decide⟩

/-- C6: marker matching is claimed anchored to entire lines.  The code
uses plain substring replacement: a line in which the Rust enable marker
occurs strictly inside other content is still rewritten. -/
theorem c6_matching_not_anchored :
    generateTextA (argsBaseA .ubuntu)
        "echo ARG INSTALL_RUST=true here".toList =
      "echo ARG INSTALL_RUST=false here".toList ∧
    "echo ARG INSTALL_RUST=false here".toList ≠
      "echo ARG INSTALL_RUST=true here".toList := by
  refine ⟨by decide, by decide⟩

/-- C8: a missing template file makes the program exit with a non-zero
code before any transformation, and no output file is written. -/
theorem c8_missing_template_fatal (a : ArgsA) (tmpl : Option (List Char))
    (h : tmpl = none) :
    (runProgramA tmpl a).exitCode ≠ 0 ∧ (runProgramA tmpl a).written = none := by
  subst h
  exact ⟨Nat.one_ne_zero, rfl⟩

/-- Witness for `c8_missing_template_fatal` at a concrete option set. -/
theorem c8_missing_template_fatal_witness :
    (runProgramA none (argsBaseA .ubuntu)).exitCode ≠ 0 ∧
    (runProgramA none (argsBaseA .ubuntu)).written = none :=
  c8_missing_template_fatal (argsBaseA .ubuntu) none rfl

/-! ## Non-interference infrastructure for the component rewrites -/

theorem occursB_iff (p : List Char) :
    ∀ s, occursB p s = true ↔ ∃ a b, s = a ++ (p ++ b) := by
  intro s
  induction s with
  | nil =>
    simp only [occursB_nil, List.isEmpty_iff]
    constructor
    · rintro rfl
      exact ⟨[], [], rfl⟩
    · rintro ⟨a, b, hab⟩
      rcases List.append_eq_nil.mp hab.symm with ⟨rfl, h2⟩
      rcases List.append_eq_nil.mp h2 with ⟨rfl, _⟩
      rfl
  | cons c s' ih =>
    rw [occursB_cons, Bool.or_eq_true]
    constructor
    · rintro (hpre | hocc)
      · obtain ⟨t, ht⟩ := (pfxB_iff p (c :: s')).mp hpre
        exact ⟨[], t, ht⟩
      · obtain ⟨a, b, hab⟩ := ih.mp hocc
        exact ⟨c :: a, b, by rw [hab]; rfl⟩
    · rintro ⟨a, b, hab⟩
      cases a with
      | nil =>
        exact Or.inl ((pfxB_iff p (c :: s')).mpr ⟨b, by simpa using hab⟩)
      | cons a0 a' =>
        simp only [List.cons_append, List.cons.injEq] at hab
        exact Or.inr (ih.mpr ⟨a', b, hab.2⟩)

/-- A pattern whose head is `'A'` cannot occur in `lit ++ v` when `v` is
free of `'A'` and every `'A'` position inside `lit` exhibits a mismatch
with the pattern inside `lit` itself. -/
theorem noOccur_append (p lit : List Char) (v : List Char)
    (hhead : p[0]? = some 'A')
    (hv : ∀ ch ∈ v, ch ≠ 'A')
    (hmm : ∀ i, i < lit.length → lit[i]? = some 'A' →
      ∃ j, j < p.length ∧ i + j < lit.length ∧ p[j]? ≠ lit[i + j]?) :
    occursB p (lit ++ v) = false := by
  by_contra hcon
  rw [Bool.not_eq_false] at hcon
  obtain ⟨a, b, hab⟩ := (occursB_iff p (lit ++ v)).mp hcon
  have hp0 : 0 < p.length := by
    by_contra h0
    push_neg at h0
    have hpn : p = [] := List.eq_nil_of_length_eq_zero (Nat.le_zero.mp h0)
    rw [hpn] at hhead
    simp at hhead
  have hgetA : (lit ++ v)[a.length]? = some 'A' := by
    rw [hab, List.getElem?_append_right (Nat.le_refl a.length), Nat.sub_self,
      List.getElem?_append_left hp0]
    exact hhead
  by_cases hlt : a.length < lit.length
  · have hlitA : lit[a.length]? = some 'A' :=
      (List.getElem?_append_left hlt).symm.trans hgetA
    obtain ⟨j, hjp, hij, hne⟩ := hmm a.length hlt hlitA
    apply hne
    have h1 : (lit ++ v)[a.length + j]? = lit[a.length + j]? :=
      List.getElem?_append_left hij
    have h2 : (lit ++ v)[a.length + j]? = p[j]? := by
      rw [hab, List.getElem?_append_right (Nat.le_add_right a.length j)]
      rw [Nat.add_sub_cancel_left]
      exact List.getElem?_append_left hjp
    rw [← h2, h1]
  · push_neg at hlt
    have hvA : v[a.length - lit.length]? = some 'A' := by
      rw [← List.getElem?_append_right hlt]
      exact hgetA
    exact hv 'A' (List.getElem?_mem hvA) rfl

/-- The eight component marker lines (five enable flags, three version
assignments) touched by the language configuration steps. -/
def langPats : List (List Char) :=
  ["ARG INSTALL_GOLANG=true".toList, "ARG GO_VERSION=1.22.2".toList,
   "ARG INSTALL_RUST=true".toList, "ARG INSTALL_PYTHON=true".toList,
   "ARG INSTALL_NODEJS=true".toList, "ARG NODE_MAJOR=20".toList,
   "ARG INSTALL_JAVA=true".toList, "ARG JAVA_VERSION=17".toList]

/-- A line in which no component marker occurs at all. -/
def inertLang (l : List Char) : Bool :=
  langPats.all (fun p => !occursB p l)

/-- Well-formed template line for the component phase: either exactly a
marker assignment line, or free of every marker. -/
def wfLineA (l : List Char) : Bool :=
  langPats.any (fun m => m == l) || inertLang l

/-- Version strings that cannot fabricate or destroy marker text: they
contain no `'A'` (in particular no `ARG`). -/
def benignA (a : ArgsA) : Bool :=
  a.goVersion.all (fun ch => !(ch == 'A')) &&
  a.nodeVersion.all (fun ch => !(ch == 'A')) &&
  a.javaVersion.all (fun ch => !(ch == 'A'))

theorem inertLang_no (l : List Char) (h : inertLang l = true) :
    ∀ p ∈ langPats, occursB p l = false := by
  intro p hp
  have := (List.all_eq_true.mp h) p hp
  simpa using this

theorem flagPat_mem (c : Comp) : flagPat c ∈ langPats := by
  cases c <;> simp [langPats, flagPat]

theorem flagPat_ne_nil (c : Comp) : flagPat c ≠ [] := by
  cases c <;> decide

theorem flagPat_no_nl (c : Comp) : '\n' ∉ flagPat c := by
  cases c <;> decide

theorem verData_mem (c : Comp) (pv lit : List Char)
    (h : verData c = some (pv, lit)) : pv ∈ langPats := by
  cases c <;> simp only [verData, Option.some.injEq, Prod.mk.injEq,
    reduceCtorEq] at h <;> rw [← h.1] <;> simp [langPats]

theorem verData_ne_nil (c : Comp) (pv lit : List Char)
    (h : verData c = some (pv, lit)) : pv ≠ [] := by
  cases c <;> simp only [verData, Option.some.injEq, Prod.mk.injEq,
    reduceCtorEq] at h <;> rw [← h.1] <;> decide

theorem verData_no_nl (c : Comp) (pv lit : List Char)
    (h : verData c = some (pv, lit)) : '\n' ∉ pv := by
  cases c <;> simp only [verData, Option.some.injEq, Prod.mk.injEq,
    reduceCtorEq] at h <;> rw [← h.1] <;> decide

theorem flag_marker_free (c : Comp) :
    ∀ m, m ∈ langPats → m ≠ flagPat c → occursB (flagPat c) m = false := by
  cases c <;> decide

theorem ver_marker_free (c : Comp) (pv lit : List Char)
    (h : verData c = some (pv, lit)) :
    ∀ m, m ∈ langPats → m ≠ pv → occursB pv m = false := by
  cases c <;> simp only [verData, Option.some.injEq, Prod.mk.injEq,
    reduceCtorEq] at h <;> rw [← h.1] <;> decide

theorem flag_ne_ver (x c : Comp) (pv lit : List Char)
    (h : verData c = some (pv, lit)) : flagPat x ≠ pv := by
  cases c <;> simp only [verData, Option.some.injEq, Prod.mk.injEq,
    reduceCtorEq] at h <;> rw [← h.1] <;> cases x <;> decide

theorem flagPat_inj (c d : Comp) (h : flagPat c = flagPat d) : c = d := by
  cases c <;> cases d <;> first | rfl | exact absurd h (by decide)

theorem ver_inj (c d : Comp) (pv lit pv' lit' : List Char)
    (hc : verData c = some (pv, lit)) (hd : verData d = some (pv', lit'))
    (hne : c ≠ d) : pv ≠ pv' := by
  cases c <;> simp only [verData, Option.some.injEq, Prod.mk.injEq,
      reduceCtorEq] at hc <;>
    cases d <;> simp only [verData, Option.some.injEq, Prod.mk.injEq,
      reduceCtorEq] at hd <;>
    first
    | exact absurd rfl hne
    | (rw [← hc.1, ← hd.1]; decide)

theorem flag_notin_own_ver (c : Comp) (pv lit : List Char)
    (h : verData c = some (pv, lit)) : occursB (flagPat c) pv = false := by
  cases c <;> simp only [verData, Option.some.injEq, Prod.mk.injEq,
    reduceCtorEq] at h <;> rw [← h.1] <;> decide

theorem inert_flagFalse (x : Comp) : inertLang (flagFalse x) = true := by
  cases x <;> decide

theorem verline_free (c : Comp) (pv lit : List Char)
    (h : verData c = some (pv, lit)) (v : List Char)
    (hv : ∀ ch ∈ v, ch ≠ 'A') :
    ∀ p, p ∈ langPats → p ≠ pv → occursB p (lit ++ v) = false := by
  intro p hp hne
  cases c <;>
    simp only [verData, Option.some.injEq, Prod.mk.injEq, reduceCtorEq] at h <;>
    rw [← h.1] at hne <;> rw [← h.2] <;>
    simp only [langPats, List.mem_cons, List.not_mem_nil, or_false] at hp <;>
    rcases hp with rfl | rfl | rfl | rfl | rfl | rfl | rfl | rfl <;>
    first
      | exact absurd rfl hne
      | exact noOccur_append _ _ v (by decide) hv (by decide)

theorem compStepA_fix (a : ArgsA) (c : Comp) (l : List Char)
    (h1 : occursB (flagPat c) l = false)
    (h2 : ∀ pv lit, verData c = some (pv, lit) → occursB pv l = false) :
    compStepA a c l = l := by
  by_cases he : compEnabled a c = true
  · cases hvd : verData c with
    | none =>
      simp only [compStepA, he, hvd, if_true]
      exact repl_self (flagPat c) (flagPat_ne_nil c) l
    | some pr =>
      obtain ⟨pv, lit⟩ := pr
      simp only [compStepA, he, hvd, if_true]
      rw [repl_self (flagPat c) (flagPat_ne_nil c) l,
        repl_no_occur pv _ l (h2 pv lit hvd)]
  · rw [Bool.not_eq_true] at he
    simp only [compStepA, he, Bool.false_eq_true, if_false]
    exact repl_no_occur _ _ l h1

theorem compStepA_fix_marker (a : ArgsA) (c : Comp) (m : List Char)
    (hm : m ∈ langPats) (hflag : m ≠ flagPat c)
    (hver : ∀ pv lit, verData c = some (pv, lit) → m ≠ pv) :
    compStepA a c m = m :=
  compStepA_fix a c m (flag_marker_free c m hm hflag)
    (fun pv lit hvd => ver_marker_free c pv lit hvd m hm (hver pv lit hvd))

theorem repl_exact (p r : List Char) (hp : p ≠ []) : repl p r p = r := by
  have h := repl_append_left p r [] hp
  simpa [repl_nil] using h

theorem compStepA_flag_self (a : ArgsA) (c : Comp) :
    compStepA a c (flagPat c) =
      (if compEnabled a c then flagPat c else flagFalse c) := by
  by_cases he : compEnabled a c = true
  · rw [if_pos he]
    cases hvd : verData c with
    | none =>
      simp only [compStepA, he, hvd, if_true]
      exact repl_self _ (flagPat_ne_nil c) _
    | some pr =>
      obtain ⟨pv, lit⟩ := pr
      simp only [compStepA, he, hvd, if_true]
      rw [repl_self _ (flagPat_ne_nil c) _]
      exact repl_no_occur pv _ _
        (ver_marker_free c pv lit hvd (flagPat c) (flagPat_mem c)
          (flag_ne_ver c c pv lit hvd))
  · rw [Bool.not_eq_true] at he
    rw [if_neg (by simp [he])]
    simp only [compStepA, he, Bool.false_eq_true, if_false]
    exact repl_exact _ _ (flagPat_ne_nil c)

theorem compStepA_ver_self (a : ArgsA) (c : Comp) (pv lit : List Char)
    (hvd : verData c = some (pv, lit)) :
    compStepA a c pv =
      (if compEnabled a c then lit ++ verValue a c else pv) := by
  by_cases he : compEnabled a c = true
  · rw [if_pos he]
    simp only [compStepA, he, hvd, if_true]
    rw [repl_no_occur _ _ _ (flag_notin_own_ver c pv lit hvd)]
    exact repl_exact _ _ (verData_ne_nil c pv lit hvd)
  · rw [Bool.not_eq_true] at he
    rw [if_neg (by simp [he])]
    simp only [compStepA, he, Bool.false_eq_true, if_false]
    exact repl_no_occur _ _ _ (flag_notin_own_ver c pv lit hvd)

theorem compStepA_inert (a : ArgsA) (c : Comp) (l : List Char)
    (h : inertLang l = true) : compStepA a c l = l :=
  compStepA_fix a c l (inertLang_no l h (flagPat c) (flagPat_mem c))
    (fun pv lit hvd => inertLang_no l h pv (verData_mem c pv lit hvd))

theorem foldl_fixed (a : ArgsA) (l : List Char) :
    ∀ order : List Comp, (∀ c ∈ order, compStepA a c l = l) →
      List.foldl (fun s c => compStepA a c s) l order = l := by
  intro order
  induction order with
  | nil => intro _; rfl
  | cons c rest ih =>
    intro h
    simp only [List.foldl_cons]
    rw [h c (List.mem_cons_self c rest)]
    exact ih (fun c' hc' => h c' (List.mem_cons_of_mem c hc'))

theorem flag_trace (a : ArgsA) (x : Comp) :
    ∀ order : List Comp, order.Nodup → x ∈ order →
      List.foldl (fun s c => compStepA a c s) (flagPat x) order =
        (if compEnabled a x then flagPat x else flagFalse x) := by
  intro order
  induction order with
  | nil => intro _ hx; exact absurd hx (List.not_mem_nil x)
  | cons c rest ih =>
    intro hnd hx
    simp only [List.foldl_cons]
    by_cases hcx : c = x
    · subst hcx
      rw [compStepA_flag_self a c]
      have hnotin : c ∉ rest := (List.nodup_cons.mp hnd).1
      by_cases he : compEnabled a c = true
      · rw [if_pos he]
        apply foldl_fixed
        intro c' hc'
        have hne : c ≠ c' := fun h => hnotin (h ▸ hc')
        exact compStepA_fix_marker a c' (flagPat c) (flagPat_mem c)
          (fun h => hne (flagPat_inj c c' h))
          (fun pv lit hvd => flag_ne_ver c c' pv lit hvd)
      · rw [Bool.not_eq_true] at he
        rw [if_neg (by simp [he])]
        apply foldl_fixed
        intro c' _
        exact compStepA_inert a c' (flagFalse c) (inert_flagFalse c)
    · have hx' : x ∈ rest := by
        rcases List.mem_cons.mp hx with h | h
        · exact absurd h.symm hcx
        · exact h
      rw [compStepA_fix_marker a c (flagPat x) (flagPat_mem x)
        (fun h => hcx (flagPat_inj x c h).symm)
        (fun pv lit hvd => flag_ne_ver x c pv lit hvd)]
      exact ih (List.nodup_cons.mp hnd).2 hx'

theorem ver_trace (a : ArgsA) (x : Comp) (pv lit : List Char)
    (hvd : verData x = some (pv, lit))
    (hbv : ∀ ch ∈ verValue a x, ch ≠ 'A') :
    ∀ order : List Comp, order.Nodup → x ∈ order →
      List.foldl (fun s c => compStepA a c s) pv order =
        (if compEnabled a x then lit ++ verValue a x else pv) := by
  intro order
  induction order with
  | nil => intro _ hx; exact absurd hx (List.not_mem_nil x)
  | cons c rest ih =>
    intro hnd hx
    simp only [List.foldl_cons]
    by_cases hcx : c = x
    · subst hcx
      rw [compStepA_ver_self a c pv lit hvd]
      have hnotin : c ∉ rest := (List.nodup_cons.mp hnd).1
      by_cases he : compEnabled a c = true
      · rw [if_pos he]
        apply foldl_fixed
        intro c' hc'
        have hne : c ≠ c' := fun h => hnotin (h ▸ hc')
        apply compStepA_fix
        · exact verline_free c pv lit hvd (verValue a c) hbv
            (flagPat c') (flagPat_mem c')
            (flag_ne_ver c' c pv lit hvd)
        · intro pv' lit' hvd'
          exact verline_free c pv lit hvd (verValue a c) hbv pv'
            (verData_mem c' pv' lit' hvd')
            (ver_inj c' c pv' lit' pv lit hvd' hvd (fun h => hne h.symm))
      · rw [Bool.not_eq_true] at he
        rw [if_neg (by simp [he])]
        apply foldl_fixed
        intro c' hc'
        have hne : c ≠ c' := fun h => hnotin (h ▸ hc')
        exact compStepA_fix_marker a c' pv (verData_mem c pv lit hvd)
          (fun h => (flag_ne_ver c' c pv lit hvd) h.symm)
          (fun pv' lit' hvd' =>
            ver_inj c c' pv lit pv' lit' hvd hvd' hne)
    · have hx' : x ∈ rest := by
        rcases List.mem_cons.mp hx with h | h
        · exact absurd h.symm hcx
        · exact h
      rw [compStepA_fix_marker a c pv (verData_mem x pv lit hvd)
        (fun h => (flag_ne_ver c x pv lit hvd) h.symm)
        (fun pv' lit' hvd' =>
          ver_inj x c pv lit pv' lit' hvd hvd' (fun h => hcx h.symm))]
      exact ih (List.nodup_cons.mp hnd).2 hx'

/-- The order-independent normal form of one well-formed line after all
five component steps have run. -/
def canonLineA (a : ArgsA) (l : List Char) : List Char :=
  if l = "ARG INSTALL_GOLANG=true".toList then
    (if a.golang then l else flagFalse .golang)
  else if l = "ARG INSTALL_RUST=true".toList then
    (if a.rust then l else flagFalse .rust)
  else if l = "ARG INSTALL_PYTHON=true".toList then
    (if a.python then l else flagFalse .python)
  else if l = "ARG INSTALL_NODEJS=true".toList then
    (if a.nodejs then l else flagFalse .nodejs)
  else if l = "ARG INSTALL_JAVA=true".toList then
    (if a.java then l else flagFalse .java)
  else if l = "ARG GO_VERSION=1.22.2".toList then
    (if a.golang then "ARG GO_VERSION=".toList ++ a.goVersion else l)
  else if l = "ARG NODE_MAJOR=20".toList then
    (if a.nodejs then "ARG NODE_MAJOR=".toList ++ a.nodeVersion else l)
  else if l = "ARG JAVA_VERSION=17".toList then
    (if a.java then "ARG JAVA_VERSION=".toList ++ a.javaVersion else l)
  else l

theorem benignA_go (a : ArgsA) (h : benignA a = true) :
    ∀ ch ∈ a.goVersion, ch ≠ 'A' := by
  intro ch hch
  have h1 := (Bool.and_eq_true _ _).mp ((Bool.and_eq_true _ _).mp h).1
  have := (List.all_eq_true.mp h1.1) ch hch
  simpa using this

theorem benignA_node (a : ArgsA) (h : benignA a = true) :
    ∀ ch ∈ a.nodeVersion, ch ≠ 'A' := by
  intro ch hch
  have h1 := (Bool.and_eq_true _ _).mp ((Bool.and_eq_true _ _).mp h).1
  have := (List.all_eq_true.mp h1.2) ch hch
  simpa using this

theorem benignA_java (a : ArgsA) (h : benignA a = true) :
    ∀ ch ∈ a.javaVersion, ch ≠ 'A' := by
  intro ch hch
  have h2 := ((Bool.and_eq_true _ _).mp h).2
  have := (List.all_eq_true.mp h2) ch hch
  simpa using this

theorem canonLineA_flag (a : ArgsA) (x : Comp) :
    canonLineA a (flagPat x) =
      (if compEnabled a x then flagPat x else flagFalse x) := by
  cases x <;> rfl

theorem canonLineA_ver_go (a : ArgsA) :
    canonLineA a "ARG GO_VERSION=1.22.2".toList =
      (if compEnabled a .golang then "ARG GO_VERSION=".toList ++ a.goVersion
       else "ARG GO_VERSION=1.22.2".toList) := rfl

theorem canonLineA_ver_node (a : ArgsA) :
    canonLineA a "ARG NODE_MAJOR=20".toList =
      (if compEnabled a .nodejs then "ARG NODE_MAJOR=".toList ++ a.nodeVersion
       else "ARG NODE_MAJOR=20".toList) := rfl

theorem canonLineA_ver_java (a : ArgsA) :
    canonLineA a "ARG JAVA_VERSION=17".toList =
      (if compEnabled a .java then "ARG JAVA_VERSION=".toList ++ a.javaVersion
       else "ARG JAVA_VERSION=17".toList) := rfl

theorem canonLineA_inert (a : ArgsA) (l : List Char)
    (hne : ∀ m ∈ langPats, l ≠ m) : canonLineA a l = l := by
  rw [canonLineA,
    if_neg (hne _ (by simp [langPats])), if_neg (hne _ (by simp [langPats])),
    if_neg (hne _ (by simp [langPats])), if_neg (hne _ (by simp [langPats])),
    if_neg (hne _ (by simp [langPats])), if_neg (hne _ (by simp [langPats])),
    if_neg (hne _ (by simp [langPats])), if_neg (hne _ (by simp [langPats]))]

theorem line_trace (a : ArgsA) (l : List Char) (hwf : wfLineA l = true)
    (hb : benignA a = true) :
    ∀ order : List Comp, order.Nodup → (∀ c : Comp, c ∈ order) →
      List.foldl (fun s c => compStepA a c s) l order = canonLineA a l := by
  intro order hnd hmem
  rw [wfLineA, Bool.or_eq_true] at hwf
  rcases hwf with hmark | hinert
  · rw [List.any_eq_true] at hmark
    obtain ⟨m, hm, hml⟩ := hmark
    rw [beq_iff_eq] at hml
    subst hml
    simp only [langPats, List.mem_cons, List.not_mem_nil, or_false] at hm
    rcases hm with rfl | rfl | rfl | rfl | rfl | rfl | rfl | rfl
    · rw [show "ARG INSTALL_GOLANG=true".toList = flagPat .golang from rfl,
        flag_trace a .golang order hnd (hmem .golang), canonLineA_flag]
    · rw [ver_trace a .golang "ARG GO_VERSION=1.22.2".toList
          "ARG GO_VERSION=".toList rfl (benignA_go a hb) order hnd
          (hmem .golang), canonLineA_ver_go]
      rfl
    · rw [show "ARG INSTALL_RUST=true".toList = flagPat .rust from rfl,
        flag_trace a .rust order hnd (hmem .rust), canonLineA_flag]
    · rw [show "ARG INSTALL_PYTHON=true".toList = flagPat .python from rfl,
        flag_trace a .python order hnd (hmem .python), canonLineA_flag]
    · rw [show "ARG INSTALL_NODEJS=true".toList = flagPat .nodejs from rfl,
        flag_trace a .nodejs order hnd (hmem .nodejs), canonLineA_flag]
    · rw [ver_trace a .nodejs "ARG NODE_MAJOR=20".toList
          "ARG NODE_MAJOR=".toList rfl (benignA_node a hb) order hnd
          (hmem .nodejs), canonLineA_ver_node]
      rfl
    · rw [show "ARG INSTALL_JAVA=true".toList = flagPat .java from rfl,
        flag_trace a .java order hnd (hmem .java), canonLineA_flag]
    · rw [ver_trace a .java "ARG JAVA_VERSION=17".toList
          "ARG JAVA_VERSION=".toList rfl (benignA_java a hb) order hnd
          (hmem .java), canonLineA_ver_java]
      rfl
  · rw [foldl_fixed a l order (fun c _ => compStepA_inert a c l hinert)]
    have hne : ∀ m ∈ langPats, l ≠ m := by
      intro m hm hlm
      subst hlm
      have hocc : occursB l l = true := (occursB_iff l l).mpr ⟨[], [], by simp⟩
      rw [inertLang_no l hinert l hm] at hocc
      exact Bool.false_ne_true hocc
    exact (canonLineA_inert a l hne).symm

theorem compStepA_joinLines (a : ArgsA) (c : Comp) (ls : List (List Char)) :
    compStepA a c (joinLines ls) = joinLines (ls.map (compStepA a c)) := by
  by_cases he : compEnabled a c = true
  · cases hvd : verData c with
    | none =>
      simp only [compStepA, he, hvd, if_true]
      rw [repl_joinLines _ _ (flagPat_ne_nil c) (flagPat_no_nl c) ls]
      congr 1
      apply List.map_congr_left
      intro l _
      simp only [compStepA, he, hvd, if_true]
    | some pr =>
      obtain ⟨pv, lit⟩ := pr
      simp only [compStepA, he, hvd, if_true]
      rw [repl_joinLines _ _ (flagPat_ne_nil c) (flagPat_no_nl c) ls,
        repl_joinLines _ _ (verData_ne_nil c pv lit hvd)
          (verData_no_nl c pv lit hvd), List.map_map]
      congr 1
      apply List.map_congr_left
      intro l _
      simp only [Function.comp_apply, compStepA, he, hvd, if_true]
  · rw [Bool.not_eq_true] at he
    simp only [compStepA, he, Bool.false_eq_true, if_false]
    rw [repl_joinLines _ _ (flagPat_ne_nil c) (flagPat_no_nl c) ls]
    congr 1
    apply List.map_congr_left
    intro l _
    simp only [compStepA, he, Bool.false_eq_true, if_false]

theorem applyComps_lines (a : ArgsA) :
    ∀ (order : List Comp) (ls : List (List Char)),
      applyComps a order (joinLines ls) =
        joinLines (ls.map
          (fun l => List.foldl (fun s c => compStepA a c s) l order)) := by
  intro order
  induction order with
  | nil =>
    intro ls
    simp [applyComps]
  | cons c rest ih =>
    intro ls
    show applyComps a rest (compStepA a c (joinLines ls)) = _
    rw [compStepA_joinLines a c ls, ih (ls.map (compStepA a c)),
      List.map_map]
    rfl

def argsC4 : ArgsA :=
  { base := .ubuntu, golang := true, rust := false, python := false,
    nodejs := false, java := false, all := false,
    goVersion := "ARG INSTALL_RUST=true".toList,
    nodeVersion := "20".toList, javaVersion := "17".toList }

/-- C4, counterexample: the component steps are not commutative for every
Option Set.  With a Go version string that embeds the Rust marker, the
Go step manufactures a Rust marker that the Rust step then rewrites — so
running Rust before or after Go gives different texts, although
[rust, golang, python, nodejs, java] is a permutation of the source
order. -/
theorem c4_order_dependent :
    ([Comp.rust, Comp.golang, Comp.python, Comp.nodejs, Comp.java]).Perm
        compOrder ∧
    applyComps argsC4 compOrder "ARG GO_VERSION=1.22.2".toList =
      "ARG GO_VERSION=ARG INSTALL_RUST=false".toList ∧
    applyComps argsC4 [Comp.rust, Comp.golang, Comp.python, Comp.nodejs,
        Comp.java] "ARG GO_VERSION=1.22.2".toList =
      "ARG GO_VERSION=ARG INSTALL_RUST=true".toList ∧
    applyComps argsC4 [Comp.rust, Comp.golang, Comp.python, Comp.nodejs,
        Comp.java] "ARG GO_VERSION=1.22.2".toList ≠
      applyComps argsC4 compOrder "ARG GO_VERSION=1.22.2".toList := by
  refine ⟨by decide, by decide, by decide, by decide⟩

/-- C4, amended: on templates whose lines are each either exactly one
component marker assignment line or free of all marker text, and for
version strings containing no `'A'` (hence no `ARG` fragment), applying
the five component configuration steps in any permutation of the
component order yields byte-identical output. -/
theorem c4_amended_order_independent (a : ArgsA) (ls : List (List Char))
    (order : List Comp)
    (hwf : ∀ l ∈ ls, wfLineA l = true) (hb : benignA a = true)
    (hperm : order.Perm compOrder) :
    applyComps a order (joinLines ls) =
      applyComps a compOrder (joinLines ls) := by
  have hnd : order.Nodup := hperm.symm.nodup (by decide)
  have hmem : ∀ c : Comp, c ∈ order := by
    intro c
    apply hperm.mem_iff.mpr
    cases c <;> decide
  rw [applyComps_lines a order ls, applyComps_lines a compOrder ls]
  congr 1
  apply List.map_congr_left
  intro l hl
  rw [line_trace a l (hwf l hl) hb order hnd hmem,
    line_trace a l (hwf l hl) hb compOrder (by decide)
      (fun c => by cases c <;> decide)]

/-- Witness for `c4_amended_order_independent` on a concrete template
and a reversed component order. -/
theorem c4_amended_order_independent_witness :
    applyComps (argsBaseA .ubuntu)
        [Comp.java, Comp.nodejs, Comp.python, Comp.rust, Comp.golang]
        (joinLines ["ARG INSTALL_GOLANG=true".toList,
          "RUN echo hello".toList, "ARG NODE_MAJOR=20".toList]) =
      applyComps (argsBaseA .ubuntu) compOrder
        (joinLines ["ARG INSTALL_GOLANG=true".toList,
          "RUN echo hello".toList, "ARG NODE_MAJOR=20".toList]) :=
  c4_amended_order_independent (argsBaseA .ubuntu)
    ["ARG INSTALL_GOLANG=true".toList, "RUN echo hello".toList,
      "ARG NODE_MAJOR=20".toList]
    [Comp.java, Comp.nodejs, Comp.python, Comp.rust, Comp.golang]
    (by decide) (by decide) (by decide)

/-! ## C5: profile exclusivity -/

/-- The marker texts used by the base-OS toggling of variant A. -/
def basePats : List (List Char) :=
  ["#FROM ubuntu:22.04".toList, "# RUN apt-get update".toList,
   "FROM ubuntu:22.04".toList, "# FROM alpine:latest".toList,
   "# RUN apk update".toList, "CMD [\"/bin/bash\"]".toList,
   "# For Alpine, use \"/bin/ash\" instead of \"/bin/bash\"".toList]

/-- Side lines of the canonical template: free of every profile marker,
of the active alpine `FROM` text, and of every component marker. -/
def sideLineOk (l : List Char) : Bool :=
  (basePats ++ ["FROM alpine:latest".toList] ++ langPats).all
    (fun p => !occursB p l)

theorem sideLineOk_base (l : List Char) (h : sideLineOk l = true) :
    ∀ p ∈ basePats, occursB p l = false := by
  intro p hp
  have := (List.all_eq_true.mp h) p (by
    simp only [List.mem_append]
    exact Or.inl (Or.inl hp))
  simpa using this

theorem sideLineOk_lang (l : List Char) (h : sideLineOk l = true) :
    inertLang l = true := by
  rw [inertLang, List.all_eq_true]
  intro p hp
  have := (List.all_eq_true.mp h) p (by
    simp only [List.mem_append]
    exact Or.inr hp)
  simpa using this

theorem sideLineOk_alpFrom (l : List Char) (h : sideLineOk l = true) :
    occursB "FROM alpine:latest".toList l = false := by
  have := (List.all_eq_true.mp h) "FROM alpine:latest".toList (by
    simp only [List.mem_append]
    exact Or.inl (Or.inr (by simp)))
  simpa using this

theorem sideLineOk_ubuFrom (l : List Char) (h : sideLineOk l = true) :
    occursB "FROM ubuntu:22.04".toList l = false := by
  have := (List.all_eq_true.mp h) "FROM ubuntu:22.04".toList (by
    simp only [List.mem_append, basePats]
    exact Or.inl (Or.inl (by simp)))
  simpa using this

theorem baseStep_joinLines (os : BaseOS) (ls : List (List Char)) :
    baseStep os (joinLines ls) = joinLines (ls.map (baseStep os)) := by
  cases os with
  | ubuntu =>
    show repl _ _ (repl _ _ (joinLines ls)) = _
    rw [repl_joinLines _ _ (by decide) (by decide) ls,
      repl_joinLines _ _ (by decide) (by decide), List.map_map]
    rfl
  | alpine =>
    show repl _ _ (repl _ _ (repl _ _ (repl _ _ (repl _ _ (joinLines ls))))) = _
    rw [repl_joinLines _ _ (by decide) (by decide) ls,
      repl_joinLines _ _ (by decide) (by decide),
      repl_joinLines _ _ (by decide) (by decide),
      repl_joinLines _ _ (by decide) (by decide),
      repl_joinLines _ _ (by decide) (by decide),
      List.map_map, List.map_map, List.map_map, List.map_map]
    rfl

theorem baseStep_inert (os : BaseOS) (l : List Char)
    (h : ∀ p ∈ basePats, occursB p l = false) : baseStep os l = l := by
  cases os with
  | ubuntu =>
    show repl _ _ (repl _ _ l) = l
    rw [repl_no_occur _ _ l (h _ (by simp [basePats])),
      repl_no_occur _ _ l (h _ (by simp [basePats]))]
  | alpine =>
    show repl _ _ (repl _ _ (repl _ _ (repl _ _ (repl _ _ l)))) = l
    rw [repl_no_occur _ _ l (h _ (by simp [basePats])),
      repl_no_occur _ _ l (h _ (by simp [basePats])),
      repl_no_occur _ _ l (h _ (by simp [basePats])),
      repl_no_occur _ _ l (h _ (by simp [basePats])),
      repl_no_occur _ _ l (h _ (by simp [basePats]))]

theorem map_fixed {α : Type} (f : α → α) (ls : List α)
    (h : ∀ l ∈ ls, f l = l) : ls.map f = ls := by
  induction ls with
  | nil => rfl
  | cons x xs ih =>
    simp only [List.map_cons]
    rw [h x (List.mem_cons_self x xs),
      ih (fun l hl => h l (List.mem_cons_of_mem x hl))]

/-- The canonical template shape: both profile blocks present, each in
its shipped (suppressed) spelling, with arbitrary marker-free lines
around them. -/
def c5TmplLines (l1 l2 l3 l4 : List (List Char)) : List (List Char) :=
  l1 ++ ["#FROM ubuntu:22.04".toList, "# RUN apt-get update".toList] ++ l2 ++
  ["# FROM alpine:latest".toList, "# RUN apk update".toList] ++ l3 ++
  ["# For Alpine, use \"/bin/ash\" instead of \"/bin/bash\"".toList,
   "CMD [\"/bin/bash\"]".toList] ++ l4

/-- The lines produced from the canonical template for each profile
choice. -/
def c5OutLines (os : BaseOS) (l1 l2 l3 l4 : List (List Char)) :
    List (List Char) :=
  match os with
  | .ubuntu =>
    l1 ++ ["FROM ubuntu:22.04".toList, "RUN apt-get update".toList] ++ l2 ++
    ["# FROM alpine:latest".toList, "# RUN apk update".toList] ++ l3 ++
    ["# For Alpine, use \"/bin/ash\" instead of \"/bin/bash\"".toList,
     "CMD [\"/bin/bash\"]".toList] ++ l4
  | .alpine =>
    l1 ++ ["## FROM ubuntu:22.04".toList, "# RUN apt-get update".toList] ++
    l2 ++ ["FROM alpine:latest".toList, "RUN apk update".toList] ++ l3 ++
    ["CMD [\"/bin/ash\"]".toList, "# CMD [\"/bin/bash\"]".toList] ++ l4

theorem mem_seven {α : Type} (l : α) (s1 s2 s3 s4 s5 s6 s7 : List α)
    (h : l ∈ s1 ++ s2 ++ s3 ++ s4 ++ s5 ++ s6 ++ s7) :
    l ∈ s1 ∨ l ∈ s2 ∨ l ∈ s3 ∨ l ∈ s4 ∨ l ∈ s5 ∨ l ∈ s6 ∨ l ∈ s7 := by
  simp only [List.mem_append] at h
  tauto

theorem c5_out_inertLang (os : BaseOS) (l1 l2 l3 l4 : List (List Char))
    (h1 : ∀ l ∈ l1, sideLineOk l = true) (h2 : ∀ l ∈ l2, sideLineOk l = true)
    (h3 : ∀ l ∈ l3, sideLineOk l = true)
    (h4 : ∀ l ∈ l4, sideLineOk l = true) :
    ∀ l ∈ c5OutLines os l1 l2 l3 l4, inertLang l = true := by
  intro l hl
  cases os <;> simp only [c5OutLines] at hl <;>
    rcases mem_seven l _ _ _ _ _ _ _ hl with h | h | h | h | h | h | h <;>
    first
      | exact sideLineOk_lang l (h1 l h)
      | exact sideLineOk_lang l (h2 l h)
      | exact sideLineOk_lang l (h3 l h)
      | exact sideLineOk_lang l (h4 l h)
      | (simp only [List.mem_cons, List.not_mem_nil, or_false] at h
         rcases h with rfl | rfl <;> decide)

/-- C5, amended: on the canonical template shape (both profile blocks
present in their shipped suppressed spelling, every other line free of
profile and component markers), each profile choice yields exactly one
active profile `FROM` line — the chosen one — while every line still
carrying the other profile's `FROM` text is comment-prefixed. -/
theorem c5_amended_exclusive (a : ArgsA) (l1 l2 l3 l4 : List (List Char))
    (h1 : ∀ l ∈ l1, sideLineOk l = true) (h2 : ∀ l ∈ l2, sideLineOk l = true)
    (h3 : ∀ l ∈ l3, sideLineOk l = true)
    (h4 : ∀ l ∈ l4, sideLineOk l = true) :
    generateTextA a (joinLines (c5TmplLines l1 l2 l3 l4)) =
      joinLines (c5OutLines a.base l1 l2 l3 l4) ∧
    (a.base = .ubuntu →
      "FROM ubuntu:22.04".toList ∈ c5OutLines a.base l1 l2 l3 l4 ∧
      ∀ l ∈ c5OutLines a.base l1 l2 l3 l4,
        occursB "FROM alpine:latest".toList l = true → l.head? = some '#') ∧
    (a.base = .alpine →
      "FROM alpine:latest".toList ∈ c5OutLines a.base l1 l2 l3 l4 ∧
      ∀ l ∈ c5OutLines a.base l1 l2 l3 l4,
        occursB "FROM ubuntu:22.04".toList l = true → l.head? = some '#') := by
  have hbmap : (c5TmplLines l1 l2 l3 l4).map (baseStep a.base) =
      c5OutLines a.base l1 l2 l3 l4 := by
    have eu1 : baseStep .ubuntu "#FROM ubuntu:22.04".toList =
        "FROM ubuntu:22.04".toList := by decide
    have eu2 : baseStep .ubuntu "# RUN apt-get update".toList =
        "RUN apt-get update".toList := by decide
    have eu3 : baseStep .ubuntu "# FROM alpine:latest".toList =
        "# FROM alpine:latest".toList := by decide
    have eu4 : baseStep .ubuntu "# RUN apk update".toList =
        "# RUN apk update".toList := by decide
    have eu5 : baseStep .ubuntu
        "# For Alpine, use \"/bin/ash\" instead of \"/bin/bash\"".toList =
        "# For Alpine, use \"/bin/ash\" instead of \"/bin/bash\"".toList := by
      decide
    have eu6 : baseStep .ubuntu "CMD [\"/bin/bash\"]".toList =
        "CMD [\"/bin/bash\"]".toList := by decide
    have ea1 : baseStep .alpine "#FROM ubuntu:22.04".toList =
        "## FROM ubuntu:22.04".toList := by decide
    have ea2 : baseStep .alpine "# RUN apt-get update".toList =
        "# RUN apt-get update".toList := by decide
    have ea3 : baseStep .alpine "# FROM alpine:latest".toList =
        "FROM alpine:latest".toList := by decide
    have ea4 : baseStep .alpine "# RUN apk update".toList =
        "RUN apk update".toList := by decide
    have ea5 : baseStep .alpine
        "# For Alpine, use \"/bin/ash\" instead of \"/bin/bash\"".toList =
        "CMD [\"/bin/ash\"]".toList := by decide
    have ea6 : baseStep .alpine "CMD [\"/bin/bash\"]".toList =
        "# CMD [\"/bin/bash\"]".toList := by decide
    cases hb : a.base with
    | ubuntu =>
      simp only [c5TmplLines, c5OutLines, List.map_append, List.map_cons,
        List.map_nil]
      rw [map_fixed _ l1
          (fun l hl => baseStep_inert _ l (sideLineOk_base l (h1 l hl))),
        map_fixed _ l2
          (fun l hl => baseStep_inert _ l (sideLineOk_base l (h2 l hl))),
        map_fixed _ l3
          (fun l hl => baseStep_inert _ l (sideLineOk_base l (h3 l hl))),
        map_fixed _ l4
          (fun l hl => baseStep_inert _ l (sideLineOk_base l (h4 l hl))),
        eu1, eu2, eu3, eu4, eu5, eu6]
    | alpine =>
      simp only [c5TmplLines, c5OutLines, List.map_append, List.map_cons,
        List.map_nil]
      rw [map_fixed _ l1
          (fun l hl => baseStep_inert _ l (sideLineOk_base l (h1 l hl))),
        map_fixed _ l2
          (fun l hl => baseStep_inert _ l (sideLineOk_base l (h2 l hl))),
        map_fixed _ l3
          (fun l hl => baseStep_inert _ l (sideLineOk_base l (h3 l hl))),
        map_fixed _ l4
          (fun l hl => baseStep_inert _ l (sideLineOk_base l (h4 l hl))),
        ea1, ea2, ea3, ea4, ea5, ea6]
  have hmain : generateTextA a (joinLines (c5TmplLines l1 l2 l3 l4)) =
      joinLines (c5OutLines a.base l1 l2 l3 l4) := by
    show applyComps (resolveAll a) compOrder
        (baseStep a.base (joinLines (c5TmplLines l1 l2 l3 l4))) = _
    rw [baseStep_joinLines, hbmap,
      applyComps_lines (resolveAll a) compOrder
        (c5OutLines a.base l1 l2 l3 l4)]
    congr 1
    apply map_fixed
    intro l hl
    exact foldl_fixed (resolveAll a) l compOrder
      (fun c _ => compStepA_inert _ c l
        (c5_out_inertLang a.base l1 l2 l3 l4 h1 h2 h3 h4 l hl))
  refine ⟨hmain, ?_, ?_⟩
  · intro hb
    rw [hb]
    constructor
    · simp [c5OutLines]
    · intro l hl hocc
      simp only [c5OutLines] at hl
      rcases mem_seven l _ _ _ _ _ _ _ hl with h | h | h | h | h | h | h
      · rw [sideLineOk_alpFrom l (h1 l h)] at hocc
        exact absurd hocc (by decide)
      · simp only [List.mem_cons, List.not_mem_nil, or_false] at h
        rcases h with rfl | rfl <;>
          first | rfl | exact absurd hocc (by decide)
      · rw [sideLineOk_alpFrom l (h2 l h)] at hocc
        exact absurd hocc (by decide)
      · simp only [List.mem_cons, List.not_mem_nil, or_false] at h
        rcases h with rfl | rfl <;>
          first | rfl | exact absurd hocc (by decide)
      · rw [sideLineOk_alpFrom l (h3 l h)] at hocc
        exact absurd hocc (by decide)
      · simp only [List.mem_cons, List.not_mem_nil, or_false] at h
        rcases h with rfl | rfl <;>
          first | rfl | exact absurd hocc (by decide)
      · rw [sideLineOk_alpFrom l (h4 l h)] at hocc
        exact absurd hocc (by decide)
  · intro hb
    rw [hb]
    constructor
    · simp [c5OutLines]
    · intro l hl hocc
      simp only [c5OutLines] at hl
      rcases mem_seven l _ _ _ _ _ _ _ hl with h | h | h | h | h | h | h
      · rw [sideLineOk_ubuFrom l (h1 l h)] at hocc
        exact absurd hocc (by decide)
      · simp only [List.mem_cons, List.not_mem_nil, or_false] at h
        rcases h with rfl | rfl <;>
          first | rfl | exact absurd hocc (by decide)
      · rw [sideLineOk_ubuFrom l (h2 l h)] at hocc
        exact absurd hocc (by decide)
      · simp only [List.mem_cons, List.not_mem_nil, or_false] at h
        rcases h with rfl | rfl <;>
          first | rfl | exact absurd hocc (by decide)
      · rw [sideLineOk_ubuFrom l (h3 l h)] at hocc
        exact absurd hocc (by decide)
      · simp only [List.mem_cons, List.not_mem_nil, or_false] at h
        rcases h with rfl | rfl <;>
          first | rfl | exact absurd hocc (by decide)
      · rw [sideLineOk_ubuFrom l (h4 l h)] at hocc
        exact absurd hocc (by decide)

/-- C5, counterexample: on a template where both profile blocks are
syntactically present but the alpine `FROM` line is active, choosing the
ubuntu profile leaves both `FROM` lines active — the non-chosen alpine
region is not suppressed. -/
theorem c5_not_exclusive :
    generateTextA (argsBaseA .ubuntu)
        "#FROM ubuntu:22.04\nFROM alpine:latest".toList =
      "FROM ubuntu:22.04\nFROM alpine:latest".toList ∧
    splitLines (generateTextA (argsBaseA .ubuntu)
        "#FROM ubuntu:22.04\nFROM alpine:latest".toList) =
      ["FROM ubuntu:22.04".toList, "FROM alpine:latest".toList] ∧
    "FROM alpine:latest".toList ∈
      splitLines (generateTextA (argsBaseA .ubuntu)
        "#FROM ubuntu:22.04\nFROM alpine:latest".toList) ∧
    ("FROM alpine:latest".toList).head? ≠ some '#' := by
  refine ⟨by decide, by decide, by decide, by decide⟩

/-- Witness for `c5_amended_exclusive` on a concrete canonical
template. -/
theorem c5_amended_exclusive_witness :
    generateTextA (argsBaseA .alpine)
        (joinLines (c5TmplLines ["RUN echo hi".toList] [] [] [])) =
      joinLines (c5OutLines BaseOS.alpine ["RUN echo hi".toList] [] [] []) ∧
    (BaseOS.alpine = BaseOS.ubuntu →
      "FROM ubuntu:22.04".toList ∈
        c5OutLines BaseOS.alpine ["RUN echo hi".toList] [] [] [] ∧
      ∀ l ∈ c5OutLines BaseOS.alpine ["RUN echo hi".toList] [] [] [],
        occursB "FROM alpine:latest".toList l = true → l.head? = some '#') ∧
    (BaseOS.alpine = BaseOS.alpine →
      "FROM alpine:latest".toList ∈
        c5OutLines BaseOS.alpine ["RUN echo hi".toList] [] [] [] ∧
      ∀ l ∈ c5OutLines BaseOS.alpine ["RUN echo hi".toList] [] [] [],
        occursB "FROM ubuntu:22.04".toList l = true → l.head? = some '#') :=
  c5_amended_exclusive (argsBaseA .alpine) ["RUN echo hi".toList] [] [] []
    (by decide) (by decide) (by decide) (by decide)

/-! ## Variant B: the `create-dockerfile copy.py` script (`part_000`) -/

/-- Drop characters up to (not including) the next newline. -/
def dropToEol (s : List Char) : List Char :=
  s.dropWhile (fun c => !(c == '\n'))

/-- Fuel-driven engine for `replEol`. -/
def replEolF (p r : List Char) : Nat → List Char → List Char
  | 0, s => s
  | _ + 1, [] => []
  | n + 1, c :: s =>
    if pfxB p (c :: s) then
      r ++ replEolF p r n (dropToEol (List.drop (p.length - 1) s))
    else c :: replEolF p r n s

/-- Embedding of `re.sub(LIT + '.*', r, s)` (no DOTALL): every match
consumes the literal `LIT` and then greedily to the end of the line. -/
def replEol (p r s : List Char) : List Char :=
  replEolF p r s.length s

theorem dropToEol_length_le (s : List Char) :
    (dropToEol s).length ≤ s.length :=
  (List.dropWhile_sublist _).length_le

theorem replEolF_fuel (p r : List Char) :
    ∀ (n m : Nat) (s : List Char), s.length ≤ n → s.length ≤ m →
      replEolF p r n s = replEolF p r m s := by
  intro n
  induction n with
  | zero =>
    intro m s hn _
    have : s = [] := List.eq_nil_of_length_eq_zero (Nat.le_zero.mp hn)
    subst this
    cases m <;> rfl
  | succ k ih =>
    intro m s hn hm
    cases s with
    | nil => cases m <;> rfl
    | cons c s' =>
      cases m with
      | zero => exact absurd hm (by simp)
      | succ m' =>
        simp only [replEolF]
        by_cases hpre : pfxB p (c :: s') = true
        · rw [hpre]
          simp only [if_true]
          congr 1
          apply ih
          · calc (dropToEol (List.drop (p.length - 1) s')).length
                  ≤ (List.drop (p.length - 1) s').length :=
                    dropToEol_length_le _
              _ ≤ s'.length := by simp
              _ ≤ k := by simpa using hn
          · calc (dropToEol (List.drop (p.length - 1) s')).length
                  ≤ (List.drop (p.length - 1) s').length :=
                    dropToEol_length_le _
              _ ≤ s'.length := by simp
              _ ≤ m' := by simpa using hm
        · rw [Bool.not_eq_true] at hpre
          rw [hpre]
          simp only [Bool.false_eq_true, if_false]
          congr 1
          exact ih m' s' (by simpa using hn) (by simpa using hm)

theorem replEol_nil (p r : List Char) : replEol p r [] = [] := rfl

theorem replEol_cons (p r : List Char) (c : Char) (s : List Char) :
    replEol p r (c :: s) =
      if pfxB p (c :: s) then
        r ++ replEol p r (dropToEol (List.drop (p.length - 1) s))
      else c :: replEol p r s := by
  show replEolF p r (s.length + 1) (c :: s) = _
  simp only [replEolF]
  by_cases hpre : pfxB p (c :: s) = true
  · rw [hpre]
    simp only [if_true]
    congr 1
    exact replEolF_fuel p r _ _ _
      (Nat.le_trans (dropToEol_length_le _) (by simp)) (Nat.le_refl _)
  · rw [Bool.not_eq_true] at hpre
    rw [hpre]
    simp only [Bool.false_eq_true, if_false]
    rfl

theorem replEol_not_pfx (p r : List Char) (c : Char) (s : List Char)
    (h : pfxB p (c :: s) = false) :
    replEol p r (c :: s) = c :: replEol p r s := by
  rw [replEol_cons, h]
  simp

theorem replEol_no_occur (p r s : List Char) (h : occursB p s = false) :
    replEol p r s = s := by
  induction s with
  | nil => rfl
  | cons c s' ih =>
    rw [occursB_cons, Bool.or_eq_false_iff] at h
    rw [replEol_not_pfx p r c s' h.1, ih h.2]

theorem dropToEol_nl_free (w : List Char) (h : '\n' ∉ w) :
    dropToEol w = [] := by
  induction w with
  | nil => rfl
  | cons c w' ih =>
    have hc : c ≠ '\n' := fun hcc => h (hcc ▸ List.mem_cons_self c w')
    show List.dropWhile _ (c :: w') = []
    rw [List.dropWhile_cons_of_pos (by simpa using hc)]
    exact ih (fun hm => h (List.mem_cons_of_mem c hm))

/-- A `LIT.*` substitution on a newline-free line starting with the
literal rewrites the whole line to the replacement. -/
theorem replEol_line_exact (p r w : List Char) (hp : p ≠ [])
    (hw : '\n' ∉ w) : replEol p r (p ++ w) = r := by
  cases p with
  | nil => exact absurd rfl hp
  | cons a p' =>
    rw [List.cons_append, replEol_cons,
      show pfxB (a :: p') (a :: (p' ++ w)) = true from pfxB_append (a :: p') w]
    simp only [if_true, List.length_cons, Nat.add_sub_cancel]
    rw [show List.drop p'.length (p' ++ w) = w from by
        simpa using List.drop_left p' w,
      dropToEol_nl_free w hw, replEol_nil, List.append_nil]

theorem dropToEol_append_nl (x b : List Char) :
    dropToEol (x ++ '\n' :: b) = dropToEol x ++ '\n' :: b := by
  induction x with
  | nil =>
    show List.dropWhile _ ('\n' :: b) = List.dropWhile _ [] ++ '\n' :: b
    rw [List.dropWhile_cons_of_neg (by simp), List.dropWhile_nil,
      List.nil_append]
  | cons c x' ih =>
    by_cases hc : c = '\n'
    · subst hc
      show List.dropWhile _ ('\n' :: (x' ++ '\n' :: b)) =
        List.dropWhile _ ('\n' :: x') ++ '\n' :: b
      rw [List.dropWhile_cons_of_neg (by simp),
        List.dropWhile_cons_of_neg (by simp)]
      rfl
    · show List.dropWhile _ (c :: (x' ++ '\n' :: b)) =
        List.dropWhile _ (c :: x') ++ '\n' :: b
      rw [List.dropWhile_cons_of_pos (by simpa using hc),
        List.dropWhile_cons_of_pos (by simpa using hc)]
      exact ih

/-- `replEol` distributes over a newline when the literal has no
newline. -/
theorem replEol_split (p r : List Char) (hp : p ≠ []) (hnl : '\n' ∉ p) :
    ∀ a b, replEol p r (a ++ '\n' :: b) =
      replEol p r a ++ '\n' :: replEol p r b := by
  have base : ∀ b, replEol p r ('\n' :: b) = '\n' :: replEol p r b := by
    intro b
    have hpre : pfxB p ('\n' :: b) = false := by
      by_contra hcon
      rw [Bool.not_eq_false] at hcon
      exact hnl (newline_mem_of_long_pfx p [] b (by simpa using hcon)
        (by simpa using length_pos_of_ne_nil hp))
    exact replEol_not_pfx p r '\n' b hpre
  have key : ∀ n a b, a.length ≤ n →
      replEol p r (a ++ '\n' :: b) =
        replEol p r a ++ '\n' :: replEol p r b := by
    intro n
    induction n with
    | zero =>
      intro a b h
      have : a = [] := List.eq_nil_of_length_eq_zero (Nat.le_zero.mp h)
      subst this
      simpa using base b
    | succ k ih =>
      intro a b h
      cases a with
      | nil => simpa using base b
      | cons c a' =>
        by_cases hpre : pfxB p (c :: a' ++ '\n' :: b) = true
        · by_cases hlen : p.length ≤ (c :: a').length
          · have hpx : pfxB p (c :: a') = true := by
              rw [← pfxB_append_of_le p (c :: a') ('\n' :: b) hlen]
              simpa using hpre
            have hdrop : List.drop (p.length - 1) (a' ++ '\n' :: b) =
                List.drop (p.length - 1) a' ++ '\n' :: b := by
              rw [List.drop_append_eq_append_drop,
                show p.length - 1 - a'.length = 0 from by
                  simp only [List.length_cons] at hlen; omega,
                List.drop_zero]
            have hpre' : pfxB p (c :: (a' ++ '\n' :: b)) = true := by
              simpa using hpre
            rw [List.cons_append, replEol_cons, hpre']
            simp only [if_true]
            rw [hdrop, dropToEol_append_nl,
              ih (dropToEol (List.drop (p.length - 1) a')) b
                (by
                  calc (dropToEol (List.drop (p.length - 1) a')).length
                      ≤ (List.drop (p.length - 1) a').length :=
                        dropToEol_length_le _
                    _ ≤ a'.length := by simp
                    _ ≤ k := by simpa using h),
              replEol_cons, hpx]
            simp only [if_true]
            rw [List.append_assoc]
          · exfalso
            push_neg at hlen
            exact hnl (newline_mem_of_long_pfx p (c :: a') b hpre hlen)
        · rw [Bool.not_eq_true] at hpre
          have hpx : pfxB p (c :: a') = false := by
            by_contra hcon
            rw [Bool.not_eq_false] at hcon
            have := pfxB_mono p (c :: a') ('\n' :: b) hcon
            simp only [List.cons_append] at this hpre
            rw [this] at hpre
            exact Bool.true_eq_false.mp hpre
          have hpre' : pfxB p (c :: (a' ++ '\n' :: b)) = false := by
            simpa using hpre
          rw [List.cons_append, replEol_not_pfx p r c _ hpre',
            replEol_not_pfx p r c a' hpx, ih a' b (by simpa using h)]
          simp
  intro a b
  exact key a.length a b (Nat.le_refl _)

theorem replEol_joinLines (p r : List Char) (hp : p ≠ [])
    (hnl : '\n' ∉ p) :
    ∀ ls : List (List Char),
      replEol p r (joinLines ls) = joinLines (ls.map (replEol p r)) := by
  intro ls
  induction ls with
  | nil => rfl
  | cons l ls' ih =>
    cases ls' with
    | nil => rfl
    | cons l' ls'' =>
      show replEol p r (l ++ '\n' :: joinLines (l' :: ls'')) = _
      rw [replEol_split p r hp hnl l (joinLines (l' :: ls'')), ih]
      rfl

/-- The `#     fi` closing-line literal of the Alpine block pattern. -/
def fiLit : List Char := "#     fi".toList

def eolAt : List Char → Bool
  | [] => true
  | c :: _ => c == '\n'

/-- Scanner for the lazy DOTALL part `.*?^#     fi` followed by `$`:
finds the earliest line-start `#     fi` at a line end, returning the
skipped middle and the rest after `fi`. -/
def seekFiF : Nat → Bool → List Char → Option (List Char × List Char)
  | 0, _, _ => none
  | n + 1, atLS, s =>
    if atLS && pfxB fiLit s && eolAt (List.drop 8 s) then
      some ([], List.drop 8 s)
    else
      match s with
      | [] => none
      | c :: t =>
        match seekFiF n (c == '\n') t with
        | some (mid, rest) => some (c :: mid, rest)
        | none => none

/-- The literal head of the commented Alpine language block:
`# RUN if [ "$INSTALL_<LANG>" = "true" ]; then \`. -/
def blockStartLit (lang : List Char) : List Char :=
  "# RUN if [ \"$INSTALL_".toList ++ lang ++ "\" = \"true\" ]; then \\".toList

/-- Fuel-driven scanner embedding
`re.sub(r'^# (RUN if ... then \\.*?^#     fi)$', group 1, s)` of
`configure_language` (MULTILINE + DOTALL): each match drops the leading
`# ` of the block's first line. -/
def blockSubF (startPat : List Char) : Nat → Bool → List Char → List Char
  | 0, _, s => s
  | n + 1, atLS, s =>
    if atLS && pfxB startPat s then
      match seekFiF n false (List.drop startPat.length s) with
      | some (mid, rest) =>
        List.drop 2 startPat ++ mid ++ fiLit ++ blockSubF startPat n false rest
      | none =>
        match s with
        | [] => []
        | c :: t => c :: blockSubF startPat n (c == '\n') t
    else
      match s with
      | [] => []
      | c :: t => c :: blockSubF startPat n (c == '\n') t

def blockSubB (lang : List Char) (s : List Char) : List Char :=
  blockSubF (blockStartLit lang) (s.length + 1) true s

/-- Embedding of variant B's `configure_language` (lines 120-137): the
enable flag is rewritten by a literal `re.sub`, the version assignment
(when both argument name and value are truthy) by an `ARG NAME=.*`
substitution, and when the component is enabled the commented Alpine
`RUN if` block is uncommented. -/
def configureLanguageB (lang : List Char) (install : Bool)
    (versionArg versionValue : Option (List Char))
    (content : List Char) : List Char :=
  let installVal := if install then "true".toList else "false".toList
  let c1 := repl ("ARG INSTALL_".toList ++ lang ++ "=true".toList)
    ("ARG INSTALL_".toList ++ lang ++ "=".toList ++ installVal) content
  let c2 :=
    match versionArg, versionValue with
    | some va, some vv =>
      if va ≠ [] ∧ vv ≠ [] then
        replEol ("ARG ".toList ++ va ++ "=".toList)
          ("ARG ".toList ++ va ++ "=".toList ++ vv) c1
      else c1
    | _, _ => c1
  if install then blockSubB lang c2 else c2

/-- The language-configuration sequence of variant B's `main`
(lines 151-155): the version argument and value are always passed for
Go, Node.js and Java, whatever the enable flags are. -/
def langPipelineB (golang rust python nodejs java : Bool)
    (goVersion nodeVersion javaVersion : List Char)
    (content : List Char) : List Char :=
  let c1 := configureLanguageB "GOLANG".toList golang
    (some "GO_VERSION".toList) (some goVersion) content
  let c2 := configureLanguageB "RUST".toList rust none none c1
  let c3 := configureLanguageB "PYTHON".toList python none none c2
  let c4 := configureLanguageB "NODEJS".toList nodejs
    (some "NODE_MAJOR".toList) (some nodeVersion) c3
  configureLanguageB "JAVA".toList java
    (some "JAVA_VERSION".toList) (some javaVersion) c4

def argsC9 : ArgsA :=
  { base := .ubuntu, golang := false, rust := false, python := false,
    nodejs := false, java := false, all := false,
    goVersion := "1.23".toList, nodeVersion := "20".toList,
    javaVersion := "17".toList }

def c9Tmpl : List Char :=
  "ARG INSTALL_GOLANG=true\nARG GO_VERSION=1.22.2".toList

/-- C9, counterexample: the two variants do NOT differ on the
disabled-but-true-by-default flag.  Their flag rewrites are the same
textual substitution (both replace `ARG INSTALL_GOLANG=true` by the
`=false` form), and on the canonical template with golang disabled both
variants flip the flag line to `false` — neither leaves the template's
default literal unchanged. -/
theorem c9_variants_agree_on_flag :
    compStepA argsC9 Comp.golang =
      configureLanguageB "GOLANG".toList false none none ∧
    splitLines (compStepA argsC9 Comp.golang c9Tmpl) =
      ["ARG INSTALL_GOLANG=false".toList, "ARG GO_VERSION=1.22.2".toList] ∧
    splitLines (configureLanguageB "GOLANG".toList false
        (some "GO_VERSION".toList) (some "1.23".toList) c9Tmpl) =
      ["ARG INSTALL_GOLANG=false".toList, "ARG GO_VERSION=1.23".toList] := by
  refine ⟨?_, by decide, by decide⟩
  funext c
  rfl

/-- C9, amended: the variants agree in flipping a disabled component's
`=true` flag to `=false`; what actually differs is the version handling
of a disabled component: on the same template and option set
(golang disabled, go version `1.23`) variant A leaves the version
assignment at the template default while variant B rewrites it. -/
theorem c9_amended_version_divergence :
    splitLines (compStepA argsC9 Comp.golang c9Tmpl) =
      ["ARG INSTALL_GOLANG=false".toList, "ARG GO_VERSION=1.22.2".toList] ∧
    splitLines (configureLanguageB "GOLANG".toList false
        (some "GO_VERSION".toList) (some argsC9.goVersion) c9Tmpl) =
      ["ARG INSTALL_GOLANG=false".toList, "ARG GO_VERSION=1.23".toList] ∧
    compStepA argsC9 Comp.golang c9Tmpl ≠
      configureLanguageB "GOLANG".toList false (some "GO_VERSION".toList)
        (some argsC9.goVersion) c9Tmpl := by
  refine ⟨by decide, by decide, by decide⟩

/-- C7, counterexample: with golang requested but no golang marker in
the template, the text is indeed left unchanged, yet the printed
applied-options report still lists `Go 1.22.2` exactly as it would for a
template that matched — the report is computed from the options alone
and neither omits nor flags the unmatched component. -/
theorem c7_report_not_flagged :
    occursB "ARG INSTALL_GOLANG=true".toList "RUN echo hello".toList =
      false ∧
    occursB "ARG GO_VERSION=1.22.2".toList "RUN echo hello".toList =
      false ∧
    generateTextA argsGolangOn "RUN echo hello".toList =
      "RUN echo hello".toList ∧
    programReportA argsGolangOn = ["Go 1.22.2".toList] := by
  refine ⟨by decide, by decide, by decide, by decide⟩

/-- The report entry each component contributes when requested
(`generate_dockerfile`, lines 141-145). -/
def reportEntryA (a : ArgsA) : Comp → List Char
  | .golang => "Go ".toList ++ a.goVersion
  | .rust => "Rust".toList
  | .python => "Python".toList
  | .nodejs => "Node.js ".toList ++ a.nodeVersion
  | .java => "Java ".toList ++ a.javaVersion

/-- C7, amended: for every component, when its enable-flag marker (and,
where it has one, its version marker) is absent from the text, the
configurator call is a no-op on the text (and raises nothing, being a
total function), but the applied-options report is a function of the
requested options alone: a requested component is always listed with
its ordinary entry, with no indication of whether its markers
matched. -/
theorem c7_amended_noop_unreported (a : ArgsA) (c : Comp) (s : List Char)
    (hf : occursB (flagPat c) s = false)
    (hv : ((verData c).map (fun pr => !occursB pr.1 s)).getD true = true) :
    compStepA a c s = s ∧
    (compEnabled a c = true → reportEntryA a c ∈ reportA a) := by
  constructor
  · apply compStepA_fix a c s hf
    intro pv lit hvd
    rw [hvd] at hv
    simpa using hv
  · intro hg
    cases c <;> simp only [compEnabled] at hg <;>
      simp [reportA, reportEntryA, hg]

/-- Witness for `c7_amended_noop_unreported`: the Node.js component is
requested on a marker-free template. -/
theorem c7_amended_noop_unreported_witness :
    compStepA argsNodeOn Comp.nodejs "FROM scratch".toList =
      "FROM scratch".toList ∧
    (compEnabled argsNodeOn Comp.nodejs = true →
      reportEntryA argsNodeOn Comp.nodejs ∈ reportA argsNodeOn) :=
  c7_amended_noop_unreported argsNodeOn Comp.nodejs "FROM scratch".toList
    (by decide) (by decide)

theorem confB_disabled_ver_dist (lang va vv : List Char)
    (hva : va ≠ []) (hvv : vv ≠ [])
    (hfnl : '\n' ∉ ("ARG INSTALL_".toList ++ lang ++ "=true".toList))
    (hvnl : '\n' ∉ ("ARG ".toList ++ va ++ "=".toList))
    (ls : List (List Char)) :
    configureLanguageB lang false (some va) (some vv) (joinLines ls) =
      joinLines (ls.map (fun l =>
        replEol ("ARG ".toList ++ va ++ "=".toList)
          ("ARG ".toList ++ va ++ "=".toList ++ vv)
          (repl ("ARG INSTALL_".toList ++ lang ++ "=true".toList)
            ("ARG INSTALL_".toList ++ lang ++ "=".toList ++ "false".toList)
            l))) := by
  show (if va ≠ [] ∧ vv ≠ [] then
      replEol ("ARG ".toList ++ va ++ "=".toList)
        ("ARG ".toList ++ va ++ "=".toList ++ vv)
        (repl ("ARG INSTALL_".toList ++ lang ++ "=true".toList)
          ("ARG INSTALL_".toList ++ lang ++ "=".toList ++ "false".toList)
          (joinLines ls))
    else
      repl ("ARG INSTALL_".toList ++ lang ++ "=true".toList)
        ("ARG INSTALL_".toList ++ lang ++ "=".toList ++ "false".toList)
        (joinLines ls)) = _
  rw [if_pos (And.intro hva hvv),
    repl_joinLines _ _ (by simp) hfnl ls,
    replEol_joinLines _ _ (by simp) hvnl, List.map_map]
  rfl

theorem confB_disabled_flag_dist (lang : List Char)
    (hfnl : '\n' ∉ ("ARG INSTALL_".toList ++ lang ++ "=true".toList))
    (ls : List (List Char)) :
    configureLanguageB lang false none none (joinLines ls) =
      joinLines (ls.map (fun l =>
        repl ("ARG INSTALL_".toList ++ lang ++ "=true".toList)
          ("ARG INSTALL_".toList ++ lang ++ "=".toList ++ "false".toList)
          l)) := by
  show repl ("ARG INSTALL_".toList ++ lang ++ "=true".toList)
      ("ARG INSTALL_".toList ++ lang ++ "=".toList ++ "false".toList)
      (joinLines ls) = _
  rw [repl_joinLines _ _ (by simp) hfnl ls]

/-- The marker texts used by variant B's language pipeline with all
components disabled: the five enable-flag markers and the three version
assignment prefixes. -/
def patsB : List (List Char) :=
  ["ARG INSTALL_GOLANG=true".toList, "ARG INSTALL_RUST=true".toList,
   "ARG INSTALL_PYTHON=true".toList, "ARG INSTALL_NODEJS=true".toList,
   "ARG INSTALL_JAVA=true".toList, "ARG GO_VERSION=".toList,
   "ARG NODE_MAJOR=".toList, "ARG JAVA_VERSION=".toList]

def sideLineOkB (l : List Char) : Bool :=
  patsB.all (fun p => !occursB p l)

theorem sideLineOkB_no (l : List Char) (h : sideLineOkB l = true) :
    ∀ p ∈ patsB, occursB p l = false := by
  intro p hp
  have := (List.all_eq_true.mp h) p hp
  simpa using this

theorem verlineB_free (p : List Char) (hp : p ∈ patsB)
    (lit : List Char)
    (hlit : lit ∈ ["ARG GO_VERSION=".toList, "ARG NODE_MAJOR=".toList,
      "ARG JAVA_VERSION=".toList])
    (hne : p ≠ lit) (w : List Char) (hw : ∀ ch ∈ w, ch ≠ 'A') :
    occursB p (lit ++ w) = false := by
  simp only [patsB, List.mem_cons, List.not_mem_nil, or_false] at hp
  simp only [List.mem_cons, List.not_mem_nil, or_false] at hlit
  rcases hp with rfl | rfl | rfl | rfl | rfl | rfl | rfl | rfl <;>
    rcases hlit with rfl | rfl | rfl <;>
    first
      | exact absurd rfl hne
      | exact noOccur_append _ _ w (by decide) hw (by decide)

/-- C10: in variant B, the version assignments are rewritten to the
supplied values even when every component is requested disabled —
`configure_language` substitutes the version whenever the version
argument and value are given, independently of the install flag, and
`main` always passes the version values for Go, Node.js and Java. -/
theorem c10_version_substituted_when_disabled
    (vg vn vj wg wn wj : List Char)
    (a1 a2 a3 a4 : List (List Char))
    (hvg : vg ≠ []) (hvn : vn ≠ []) (hvj : vj ≠ [])
    (hbg : ∀ ch ∈ vg, ch ≠ 'A') (hbn : ∀ ch ∈ vn, ch ≠ 'A')
    (hbj : ∀ ch ∈ vj, ch ≠ 'A')
    (hsg : '\\' ∉ vg) (hsn : '\\' ∉ vn) (hsj : '\\' ∉ vj)
    (hwg : ∀ ch ∈ wg, ch ≠ 'A') (hwn : ∀ ch ∈ wn, ch ≠ 'A')
    (hwj : ∀ ch ∈ wj, ch ≠ 'A')
    (hwgn : '\n' ∉ wg) (hwnn : '\n' ∉ wn) (hwjn : '\n' ∉ wj)
    (h1 : ∀ l ∈ a1, sideLineOkB l = true)
    (h2 : ∀ l ∈ a2, sideLineOkB l = true)
    (h3 : ∀ l ∈ a3, sideLineOkB l = true)
    (h4 : ∀ l ∈ a4, sideLineOkB l = true) :
    langPipelineB false false false false false vg vn vj
        (joinLines (a1 ++ ["ARG GO_VERSION=".toList ++ wg] ++ a2 ++
          ["ARG NODE_MAJOR=".toList ++ wn] ++ a3 ++
          ["ARG JAVA_VERSION=".toList ++ wj] ++ a4)) =
      joinLines (a1 ++ ["ARG GO_VERSION=".toList ++ vg] ++ a2 ++
        ["ARG NODE_MAJOR=".toList ++ vn] ++ a3 ++
        ["ARG JAVA_VERSION=".toList ++ vj] ++ a4) := by
  have hmemG : "ARG INSTALL_GOLANG=true".toList ∈ patsB := by decide
  have hmemR : "ARG INSTALL_RUST=true".toList ∈ patsB := by decide
  have hmemP : "ARG INSTALL_PYTHON=true".toList ∈ patsB := by decide
  have hmemN : "ARG INSTALL_NODEJS=true".toList ∈ patsB := by decide
  have hmemJ : "ARG INSTALL_JAVA=true".toList ∈ patsB := by decide
  have hmemGv : "ARG GO_VERSION=".toList ∈ patsB := by decide
  have hmemNv : "ARG NODE_MAJOR=".toList ∈ patsB := by decide
  have hmemJv : "ARG JAVA_VERSION=".toList ∈ patsB := by decide
  have hlitG : "ARG GO_VERSION=".toList ∈
      ["ARG GO_VERSION=".toList, "ARG NODE_MAJOR=".toList,
        "ARG JAVA_VERSION=".toList] := by decide
  have hlitN : "ARG NODE_MAJOR=".toList ∈
      ["ARG GO_VERSION=".toList, "ARG NODE_MAJOR=".toList,
        "ARG JAVA_VERSION=".toList] := by decide
  have hlitJ : "ARG JAVA_VERSION=".toList ∈
      ["ARG GO_VERSION=".toList, "ARG NODE_MAJOR=".toList,
        "ARG JAVA_VERSION=".toList] := by decide
  have hstep1 :
      configureLanguageB "GOLANG".toList false (some "GO_VERSION".toList)
        (some vg)
        (joinLines (a1 ++ ["ARG GO_VERSION=".toList ++ wg] ++ a2 ++
          ["ARG NODE_MAJOR=".toList ++ wn] ++ a3 ++
          ["ARG JAVA_VERSION=".toList ++ wj] ++ a4)) =
      joinLines (a1 ++ ["ARG GO_VERSION=".toList ++ vg] ++ a2 ++
        ["ARG NODE_MAJOR=".toList ++ wn] ++ a3 ++
        ["ARG JAVA_VERSION=".toList ++ wj] ++ a4) := by
    rw [confB_disabled_ver_dist "GOLANG".toList "GO_VERSION".toList vg
      (by decide) hvg (by decide) (by decide)]
    congr 1
    simp only [show "ARG INSTALL_".toList ++ "GOLANG".toList ++
        "=true".toList = "ARG INSTALL_GOLANG=true".toList from by decide,
      show "ARG INSTALL_".toList ++ "GOLANG".toList ++ "=".toList ++
        "false".toList = "ARG INSTALL_GOLANG=false".toList from by decide,
      show "ARG ".toList ++ "GO_VERSION".toList ++ "=".toList =
        "ARG GO_VERSION=".toList from by decide,
      List.map_append, List.map_cons, List.map_nil]
    rw [map_fixed _ a1 (fun l hl => by
        rw [repl_no_occur _ _ l (sideLineOkB_no l (h1 l hl) _ hmemG),
          replEol_no_occur _ _ l (sideLineOkB_no l (h1 l hl) _ hmemGv)]),
      map_fixed _ a2 (fun l hl => by
        rw [repl_no_occur _ _ l (sideLineOkB_no l (h2 l hl) _ hmemG),
          replEol_no_occur _ _ l (sideLineOkB_no l (h2 l hl) _ hmemGv)]),
      map_fixed _ a3 (fun l hl => by
        rw [repl_no_occur _ _ l (sideLineOkB_no l (h3 l hl) _ hmemG),
          replEol_no_occur _ _ l (sideLineOkB_no l (h3 l hl) _ hmemGv)]),
      map_fixed _ a4 (fun l hl => by
        rw [repl_no_occur _ _ l (sideLineOkB_no l (h4 l hl) _ hmemG),
          replEol_no_occur _ _ l (sideLineOkB_no l (h4 l hl) _ hmemGv)]),
      repl_no_occur _ _ _
        (verlineB_free _ hmemG _ hlitG (by decide) wg hwg),
      replEol_line_exact "ARG GO_VERSION=".toList _ wg (by decide) hwgn,
      repl_no_occur _ _ _
        (verlineB_free _ hmemG _ hlitN (by decide) wn hwn),
      replEol_no_occur _ _ _
        (verlineB_free _ hmemGv _ hlitN (by decide) wn hwn),
      repl_no_occur _ _ _
        (verlineB_free _ hmemG _ hlitJ (by decide) wj hwj),
      replEol_no_occur _ _ _
        (verlineB_free _ hmemGv _ hlitJ (by decide) wj hwj)]
  have hflagfix : ∀ (fp : List Char), fp ∈ patsB →
      ∀ ff : List Char,
      ∀ l, sideLineOkB l = true → repl fp ff l = l := fun fp hfp ff l hl =>
    repl_no_occur _ _ l (sideLineOkB_no l hl _ hfp)
  have hstep2 :
      configureLanguageB "RUST".toList false none none
        (joinLines (a1 ++ ["ARG GO_VERSION=".toList ++ vg] ++ a2 ++
          ["ARG NODE_MAJOR=".toList ++ wn] ++ a3 ++
          ["ARG JAVA_VERSION=".toList ++ wj] ++ a4)) =
      joinLines (a1 ++ ["ARG GO_VERSION=".toList ++ vg] ++ a2 ++
        ["ARG NODE_MAJOR=".toList ++ wn] ++ a3 ++
        ["ARG JAVA_VERSION=".toList ++ wj] ++ a4) := by
    rw [confB_disabled_flag_dist "RUST".toList (by decide)]
    congr 1
    simp only [show "ARG INSTALL_".toList ++ "RUST".toList ++
        "=true".toList = "ARG INSTALL_RUST=true".toList from by decide,
      show "ARG INSTALL_".toList ++ "RUST".toList ++ "=".toList ++
        "false".toList = "ARG INSTALL_RUST=false".toList from by decide,
      List.map_append, List.map_cons, List.map_nil]
    rw [map_fixed _ a1 (fun l hl => hflagfix _ hmemR _ l (h1 l hl)),
      map_fixed _ a2 (fun l hl => hflagfix _ hmemR _ l (h2 l hl)),
      map_fixed _ a3 (fun l hl => hflagfix _ hmemR _ l (h3 l hl)),
      map_fixed _ a4 (fun l hl => hflagfix _ hmemR _ l (h4 l hl)),
      repl_no_occur _ _ _
        (verlineB_free _ hmemR _ hlitG (by decide) vg hbg),
      repl_no_occur _ _ _
        (verlineB_free _ hmemR _ hlitN (by decide) wn hwn),
      repl_no_occur _ _ _
        (verlineB_free _ hmemR _ hlitJ (by decide) wj hwj)]
  have hstep3 :
      configureLanguageB "PYTHON".toList false none none
        (joinLines (a1 ++ ["ARG GO_VERSION=".toList ++ vg] ++ a2 ++
          ["ARG NODE_MAJOR=".toList ++ wn] ++ a3 ++
          ["ARG JAVA_VERSION=".toList ++ wj] ++ a4)) =
      joinLines (a1 ++ ["ARG GO_VERSION=".toList ++ vg] ++ a2 ++
        ["ARG NODE_MAJOR=".toList ++ wn] ++ a3 ++
        ["ARG JAVA_VERSION=".toList ++ wj] ++ a4) := by
    rw [confB_disabled_flag_dist "PYTHON".toList (by decide)]
    congr 1
    simp only [show "ARG INSTALL_".toList ++ "PYTHON".toList ++
        "=true".toList = "ARG INSTALL_PYTHON=true".toList from by decide,
      show "ARG INSTALL_".toList ++ "PYTHON".toList ++ "=".toList ++
        "false".toList = "ARG INSTALL_PYTHON=false".toList from by decide,
      List.map_append, List.map_cons, List.map_nil]
    rw [map_fixed _ a1 (fun l hl => hflagfix _ hmemP _ l (h1 l hl)),
      map_fixed _ a2 (fun l hl => hflagfix _ hmemP _ l (h2 l hl)),
      map_fixed _ a3 (fun l hl => hflagfix _ hmemP _ l (h3 l hl)),
      map_fixed _ a4 (fun l hl => hflagfix _ hmemP _ l (h4 l hl)),
      repl_no_occur _ _ _
        (verlineB_free _ hmemP _ hlitG (by decide) vg hbg),
      repl_no_occur _ _ _
        (verlineB_free _ hmemP _ hlitN (by decide) wn hwn),
      repl_no_occur _ _ _
        (verlineB_free _ hmemP _ hlitJ (by decide) wj hwj)]
  have hstep4 :
      configureLanguageB "NODEJS".toList false (some "NODE_MAJOR".toList)
        (some vn)
        (joinLines (a1 ++ ["ARG GO_VERSION=".toList ++ vg] ++ a2 ++
          ["ARG NODE_MAJOR=".toList ++ wn] ++ a3 ++
          ["ARG JAVA_VERSION=".toList ++ wj] ++ a4)) =
      joinLines (a1 ++ ["ARG GO_VERSION=".toList ++ vg] ++ a2 ++
        ["ARG NODE_MAJOR=".toList ++ vn] ++ a3 ++
        ["ARG JAVA_VERSION=".toList ++ wj] ++ a4) := by
    rw [confB_disabled_ver_dist "NODEJS".toList "NODE_MAJOR".toList vn
      (by decide) hvn (by decide) (by decide)]
    congr 1
    simp only [show "ARG INSTALL_".toList ++ "NODEJS".toList ++
        "=true".toList = "ARG INSTALL_NODEJS=true".toList from by decide,
      show "ARG INSTALL_".toList ++ "NODEJS".toList ++ "=".toList ++
        "false".toList = "ARG INSTALL_NODEJS=false".toList from by decide,
      show "ARG ".toList ++ "NODE_MAJOR".toList ++ "=".toList =
        "ARG NODE_MAJOR=".toList from by decide,
      List.map_append, List.map_cons, List.map_nil]
    rw [map_fixed _ a1 (fun l hl => by
        rw [repl_no_occur _ _ l (sideLineOkB_no l (h1 l hl) _ hmemN),
          replEol_no_occur _ _ l (sideLineOkB_no l (h1 l hl) _ hmemNv)]),
      map_fixed _ a2 (fun l hl => by
        rw [repl_no_occur _ _ l (sideLineOkB_no l (h2 l hl) _ hmemN),
          replEol_no_occur _ _ l (sideLineOkB_no l (h2 l hl) _ hmemNv)]),
      map_fixed _ a3 (fun l hl => by
        rw [repl_no_occur _ _ l (sideLineOkB_no l (h3 l hl) _ hmemN),
          replEol_no_occur _ _ l (sideLineOkB_no l (h3 l hl) _ hmemNv)]),
      map_fixed _ a4 (fun l hl => by
        rw [repl_no_occur _ _ l (sideLineOkB_no l (h4 l hl) _ hmemN),
          replEol_no_occur _ _ l (sideLineOkB_no l (h4 l hl) _ hmemNv)]),
      repl_no_occur _ _ _
        (verlineB_free _ hmemN _ hlitG (by decide) vg hbg),
      replEol_no_occur _ _ _
        (verlineB_free _ hmemNv _ hlitG (by decide) vg hbg),
      repl_no_occur _ _ _
        (verlineB_free _ hmemN _ hlitN (by decide) wn hwn),
      replEol_line_exact "ARG NODE_MAJOR=".toList _ wn (by decide) hwnn,
      repl_no_occur _ _ _
        (verlineB_free _ hmemN _ hlitJ (by decide) wj hwj),
      replEol_no_occur _ _ _
        (verlineB_free _ hmemNv _ hlitJ (by decide) wj hwj)]
  have hstep5 :
      configureLanguageB "JAVA".toList false (some "JAVA_VERSION".toList)
        (some vj)
        (joinLines (a1 ++ ["ARG GO_VERSION=".toList ++ vg] ++ a2 ++
          ["ARG NODE_MAJOR=".toList ++ vn] ++ a3 ++
          ["ARG JAVA_VERSION=".toList ++ wj] ++ a4)) =
      joinLines (a1 ++ ["ARG GO_VERSION=".toList ++ vg] ++ a2 ++
        ["ARG NODE_MAJOR=".toList ++ vn] ++ a3 ++
        ["ARG JAVA_VERSION=".toList ++ vj] ++ a4) := by
    rw [confB_disabled_ver_dist "JAVA".toList "JAVA_VERSION".toList vj
      (by decide) hvj (by decide) (by decide)]
    congr 1
    simp only [show "ARG INSTALL_".toList ++ "JAVA".toList ++
        "=true".toList = "ARG INSTALL_JAVA=true".toList from by decide,
      show "ARG INSTALL_".toList ++ "JAVA".toList ++ "=".toList ++
        "false".toList = "ARG INSTALL_JAVA=false".toList from by decide,
      show "ARG ".toList ++ "JAVA_VERSION".toList ++ "=".toList =
        "ARG JAVA_VERSION=".toList from by decide,
      List.map_append, List.map_cons, List.map_nil]
    rw [map_fixed _ a1 (fun l hl => by
        rw [repl_no_occur _ _ l (sideLineOkB_no l (h1 l hl) _ hmemJ),
          replEol_no_occur _ _ l (sideLineOkB_no l (h1 l hl) _ hmemJv)]),
      map_fixed _ a2 (fun l hl => by
        rw [repl_no_occur _ _ l (sideLineOkB_no l (h2 l hl) _ hmemJ),
          replEol_no_occur _ _ l (sideLineOkB_no l (h2 l hl) _ hmemJv)]),
      map_fixed _ a3 (fun l hl => by
        rw [repl_no_occur _ _ l (sideLineOkB_no l (h3 l hl) _ hmemJ),
          replEol_no_occur _ _ l (sideLineOkB_no l (h3 l hl) _ hmemJv)]),
      map_fixed _ a4 (fun l hl => by
        rw [repl_no_occur _ _ l (sideLineOkB_no l (h4 l hl) _ hmemJ),
          replEol_no_occur _ _ l (sideLineOkB_no l (h4 l hl) _ hmemJv)]),
      repl_no_occur _ _ _
        (verlineB_free _ hmemJ _ hlitG (by decide) vg hbg),
      replEol_no_occur _ _ _
        (verlineB_free _ hmemJv _ hlitG (by decide) vg hbg),
      repl_no_occur _ _ _
        (verlineB_free _ hmemJ _ hlitN (by decide) vn hbn),
      replEol_no_occur _ _ _
        (verlineB_free _ hmemJv _ hlitN (by decide) vn hbn),
      repl_no_occur _ _ _
        (verlineB_free _ hmemJ _ hlitJ (by decide) wj hwj),
      replEol_line_exact "ARG JAVA_VERSION=".toList _ wj (by decide) hwjn]
  show configureLanguageB "JAVA".toList false (some "JAVA_VERSION".toList)
      (some vj)
      (configureLanguageB "NODEJS".toList false (some "NODE_MAJOR".toList)
        (some vn)
        (configureLanguageB "PYTHON".toList false none none
          (configureLanguageB "RUST".toList false none none
            (configureLanguageB "GOLANG".toList false
              (some "GO_VERSION".toList) (some vg)
              (joinLines (a1 ++ ["ARG GO_VERSION=".toList ++ wg] ++ a2 ++
                ["ARG NODE_MAJOR=".toList ++ wn] ++ a3 ++
                ["ARG JAVA_VERSION=".toList ++ wj] ++ a4)))))) = _
  rw [hstep1, hstep2, hstep3, hstep4, hstep5]

/-- Witness for `c10_version_substituted_when_disabled` on a concrete
template with all components disabled and non-default versions. -/
theorem c10_version_substituted_when_disabled_witness :
    langPipelineB false false false false false "1.23".toList "21".toList
        "19".toList
        (joinLines (["FROM ubuntu:22.04".toList] ++
          ["ARG GO_VERSION=".toList ++ "1.22.2".toList] ++ [] ++
          ["ARG NODE_MAJOR=".toList ++ "20".toList] ++ [] ++
          ["ARG JAVA_VERSION=".toList ++ "17".toList] ++ [])) =
      joinLines (["FROM ubuntu:22.04".toList] ++
        ["ARG GO_VERSION=".toList ++ "1.23".toList] ++ [] ++
        ["ARG NODE_MAJOR=".toList ++ "21".toList] ++ [] ++
        ["ARG JAVA_VERSION=".toList ++ "19".toList] ++ []) :=
  c10_version_substituted_when_disabled "1.23".toList "21".toList
    "19".toList "1.22.2".toList "20".toList "17".toList
    ["FROM ubuntu:22.04".toList] [] [] []
    (by decide) (by decide) (by decide) (by decide) (by decide) (by decide)
    (by decide) (by decide) (by decide) (by decide) (by decide) (by decide)
    (by decide) (by decide) (by decide) (by decide) (by decide) (by decide)
    (by decide)
